import Mathlib

/-!
# INC (INC's Not CAD): mesh preparation, anchors, gravity gate, selection, springs, lattices, picking

A shallow embedding of parts of `src/src/inc/inc_Solid.cpp`.

Modelling conventions.
* `float` values are modelled as rationals (`ℚ`) with a lawful equality and a
  total order; not-a-number and infinite values are outside the model.
* In `get_top_vertices`, where rounding decides which indices are returned,
  every `float` operation is rounded to binary32 (`fl32`: round to nearest, ties
  to even, no overflow below `2^128`).  Elsewhere the arithmetic is exact: there
  rounding moves numeric values in the last place only.
* `std::vector` is a `List`; positions in a vector are `Nat` (the vectors are
  far shorter than `2^31`, so the `int` loop counters do not wrap).
* An access outside a vector, or through a null pointer, is undefined in C++;
  the embedding returns `none` there.
* Process-wide singletons (`MeshCreator::instance()`, `Manager::instance()`)
  are passed explicitly.
-/

namespace inc

/-! ## Data model -/

/-- The vector type `ci::Vec3f`. -/
structure Vec3f where
  x : ℚ
  y : ℚ
  z : ℚ
deriving DecidableEq

instance : Inhabited Vec3f := ⟨⟨0, 0, 0⟩⟩

/-- The mesh type `ci::TriMesh`: a vertex vector and a flat index vector, three
indices per triangle (`appendTriangle` pushes three). -/
structure TriMesh where
  vertices : List Vec3f
  indices : List Nat
deriving DecidableEq

/-- Method `TriMesh::getNumVertices`. -/
def TriMesh.getNumVertices (m : TriMesh) : Nat := m.vertices.length

/-- Method `TriMesh::getNumTriangles`: the index count divided by three. -/
def TriMesh.getNumTriangles (m : TriMesh) : Nat := m.indices.length / 3

/-- A triangle mesh in the sense of the claims: the index count is a multiple
of three and every index is a position in the vertex vector. -/
def TriMesh.WellFormed (m : TriMesh) : Prop :=
  m.indices.length % 3 = 0 ∧ ∀ i ∈ m.indices, i < m.vertices.length

/-! ## `SolidFactory::remove_mesh_duplicates` -/

/-- One iteration of the vertex loop of `remove_mesh_duplicates`
(`use_thresh` is the constant `false`, so only the `std::find` branch is live).
The state is the pair (`vertex_reduce`, vertices appended to `mesh_ptr`). -/
def reduce_step (st : List Vec3f × List Vec3f) (v : Vec3f) : List Vec3f × List Vec3f :=
  if v ∈ st.1 then st else (st.1 ++ [v], st.2 ++ [v])

/-- The whole vertex loop, started with both vectors empty. -/
def reduce_loop (vertices : List Vec3f) : List Vec3f × List Vec3f :=
  vertices.foldl reduce_step ([], [])

/-- The scan of the lambda `find_indice` from position `i` on: the position of
the first element equal to `val`, and `0` when the scan runs off the end. -/
def find_indice_from (val : Vec3f) : List Vec3f → Nat → Nat
  | [], _ => 0
  | v :: rest, i => if v = val then i else find_indice_from val rest (i + 1)

/-- The lambda `find_indice` of `remove_mesh_duplicates` (with `use_thresh`
false the map lookup is skipped). -/
def find_indice (vec : List Vec3f) (val : Vec3f) : Nat :=
  find_indice_from val vec 0

/-- The re-indexing loop: it consumes three indices per iteration and appends
one triangle.  Reading `vertices[*it]` outside the vector, or stepping the
iterator past the end, is undefined and gives `none`. -/
def reindex (vertices vertex_reduce : List Vec3f) : List Nat → Option (List Nat)
  | [] => some []
  | a :: b :: c :: rest =>
    match vertices[a]?, vertices[b]?, vertices[c]? with
    | some va, some vb, some vc =>
      match reindex vertices vertex_reduce rest with
      | some tl =>
        some (find_indice vertex_reduce va :: find_indice vertex_reduce vb ::
          find_indice vertex_reduce vc :: tl)
      | none => none
    | _, _, _ => none
  | _ => none

/-- The function `SolidFactory::remove_mesh_duplicates`. -/
def remove_mesh_duplicates (mesh : TriMesh) : Option TriMesh :=
  let st := reduce_loop mesh.vertices
  match reindex mesh.vertices st.1 mesh.indices with
  | some idx => some ⟨st.2, idx⟩
  | none => none

/-- The claim's wording of the reduced vertex list, read literally: walk the
input, remembering every vertex seen so far (`earlier`), and remove a vertex
exactly when it equals an earlier one. -/
def drop_equal_to_earlier (earlier : List Vec3f) : List Vec3f → List Vec3f
  | [] => []
  | v :: rest =>
    if v ∈ earlier then drop_equal_to_earlier (earlier ++ [v]) rest
    else v :: drop_equal_to_earlier (earlier ++ [v]) rest

/-- The input vertex list with every vertex that equals an earlier vertex
removed. -/
def remove_equal_to_earlier (vertices : List Vec3f) : List Vec3f :=
  drop_equal_to_earlier [] vertices

/-- The recursive form used in the proofs: keep the head, drop its later copies. -/
def keep_first : List Vec3f → List Vec3f
  | [] => []
  | v :: rest => v :: (keep_first rest).filter (fun u => decide (u ≠ v))

/-- The result of `remove_mesh_duplicates` on a well-formed mesh, in closed
form (used in the proofs). -/
def dedup_result (m : TriMesh) : TriMesh :=
  ⟨keep_first m.vertices,
   m.indices.map (fun i => find_indice (keep_first m.vertices) (m.vertices.getD i default))⟩

instance (m : TriMesh) : Decidable m.WellFormed := by
  unfold TriMesh.WellFormed
  infer_instance

/-- A mesh of two triangles over five vertices, two of them repeated. -/
def sample_mesh : TriMesh :=
  ⟨[⟨0, 0, 0⟩, ⟨1, 0, 0⟩, ⟨0, 0, 0⟩, ⟨0, 1, 0⟩, ⟨1, 0, 0⟩], [0, 1, 3, 2, 4, 3]⟩

/-- The mesh `remove_mesh_duplicates` returns for `sample_mesh`. -/
def sample_mesh_reduced : TriMesh :=
  ⟨[⟨0, 0, 0⟩, ⟨1, 0, 0⟩, ⟨0, 1, 0⟩], [0, 1, 2, 0, 1, 2]⟩

/-! ## Rounding to binary32 -/

/-- Rounding of a non-negative rational to the nearest integer, ties to the
even one. -/
def round_half_even (t : ℚ) : ℤ :=
  if t - ⌊t⌋ < 1 / 2 then ⌊t⌋
  else if 1 / 2 < t - ⌊t⌋ then ⌊t⌋ + 1
  else if ⌊t⌋ % 2 = 0 then ⌊t⌋ else ⌊t⌋ + 1

/-- The spacing of binary32 numbers around the magnitude `a`: `2^(e - 23)` with
`e` the binary exponent of `a`, not below `-126` (subnormal range). -/
def float_quantum (a : ℚ) : ℚ := (2 : ℚ) ^ (max (Int.log 2 a) (-126) - 23)

/-- Rounding of a magnitude `a ≥ 0` to binary32, round to nearest, ties to
even. -/
def fl32_magnitude (a : ℚ) : ℚ := round_half_even (a / float_quantum a) * float_quantum a

/-- Rounding of a rational to binary32: round to nearest, ties to even, with
the subnormal range; the value a `float` operation stores for the exact result
`x`.  Results of magnitude `2^128` or more, which binary32 turns into an
infinity, are outside the model. -/
def fl32 (x : ℚ) : ℚ := if x < 0 then -fl32_magnitude (-x) else fl32_magnitude x

/-! ## `SolidFactory::get_top_vertices` -/

/-- One iteration of the extent loop of `get_top_vertices`; the state is
(`top_height`, `bottom_height`). -/
def extent_step (st : ℚ × ℚ) (v : Vec3f) : ℚ × ℚ :=
  (if v.y ≥ st.1 then v.y else st.1, if v.y ≤ st.2 then v.y else st.2)

/-- The value `spread = (top_height - bottom_height) / 10.0f`: a `float`
subtraction and a `float` division, each rounded. -/
def band_spread (top_height bottom_height : ℚ) : ℚ :=
  fl32 (fl32 (top_height - bottom_height) / 10)

/-- The index loop of `get_top_vertices`, at loop counter `i` with the vertices
from position `i` on still to visit: `i` is pushed when the height lies strictly
between the `float` values of `ref_height - spread` and `ref_height + spread`. -/
def band_scan (ref_height spread : ℚ) : List Vec3f → Nat → List Nat
  | [], _ => []
  | v :: rest, i =>
    if v.y < fl32 (ref_height + spread) ∧ v.y > fl32 (ref_height - spread) then
      i :: band_scan ref_height spread rest (i + 1)
    else band_scan ref_height spread rest (i + 1)

/-- The function `SolidFactory::get_top_vertices`; the flag is the value of
`MeshCreator::instance().is_pointed_up()`. -/
def get_top_vertices (is_pointed_up : Bool) (mesh : TriMesh) : List Nat :=
  match mesh.vertices with
  | [] => []
  | v0 :: rest =>
    let st := (v0 :: rest).foldl extent_step (v0.y, v0.y)
    let top_height := st.1
    let bottom_height := st.2
    let spread := band_spread top_height bottom_height
    let ref_height := if is_pointed_up then bottom_height else top_height
    band_scan ref_height spread (v0 :: rest) 0

/-- The mesh of the banding example: eleven vertices at heights 0, 1, ..., 10
(vertex `k` at height `k`), no triangles. -/
def ladder_mesh : TriMesh :=
  ⟨[⟨0, 0, 0⟩, ⟨0, 1, 0⟩, ⟨0, 2, 0⟩, ⟨0, 3, 0⟩, ⟨0, 4, 0⟩, ⟨0, 5, 0⟩, ⟨0, 6, 0⟩,
    ⟨0, 7, 0⟩, ⟨0, 8, 0⟩, ⟨0, 9, 0⟩, ⟨0, 10, 0⟩], []⟩

/-! ## Solids and the gravity gate of `SolidFactory::update` -/

/-- The two concrete classes derived from `Solid`. -/
inductive SolidKind where
  | rigid
  | soft
deriving DecidableEq

/-- The engine-side object behind `body_`, reduced to what the modelled code
reads or writes: the bounding sphere of the collision shape, the origin of the
world transform, the per-body gravity vector, the activation flag and the
velocity. -/
structure Body where
  bounding_center : Vec3f
  bounding_radius : ℚ
  origin : Vec3f
  gravity : Vec3f
  active : Bool
  velocity : Vec3f
deriving DecidableEq

/-- The visual `SolidGraphicItem`, reduced to the results of its two virtual
bounding-sphere queries. -/
structure SolidGraphicItem where
  has_alternate_bounding_sphere : Bool
  bounding_sphere_radius : ℚ
deriving DecidableEq

/-- The class `Solid` with its members; `graphic_item` is `none` for a null
pointer. -/
structure Solid where
  kind : SolidKind
  graphic_item : Option SolidGraphicItem
  body : Body
  selected : Bool
  has_force : Bool
  visible : Bool
  force : Vec3f
deriving DecidableEq

/-- The method `RigidSolid::set_gravity`. -/
def RigidSolid.set_gravity (s : Solid) (g : ℚ) : Solid :=
  { s with body := { s.body with gravity := ⟨0, g, 0⟩, active := true } }

/-- The method `SoftSolid::set_gravity`. -/
def SoftSolid.set_gravity (s : Solid) (_g : ℚ) : Solid :=
  { s with body := { s.body with active := true } }

/-- Virtual dispatch of `set_gravity`. -/
def Solid.set_gravity (s : Solid) (g : ℚ) : Solid :=
  match s.kind with
  | SolidKind.rigid => RigidSolid.set_gravity s g
  | SolidKind.soft => SoftSolid.set_gravity s g

/-- The process state `SolidFactory::update` works on: the factory members
`gravity_` and `last_gravity_`, the gravity vectors of the dynamics world and
of the soft-body world info, the registry `Manager::instance().solids()`, the
number of `stepSimulation` calls, and a record of every `set_gravity` call made
on a registered solid (its position in the registry and the value passed). -/
structure FactoryState where
  gravity_ : ℚ
  last_gravity_ : ℚ
  world_gravity : Vec3f
  info_gravity : Vec3f
  solids : List Solid
  steps : Nat
  set_gravity_calls : List (Nat × ℚ)

/-- The method `SolidFactory::set_gravity`. -/
def FactoryState.set_gravity (st : FactoryState) (grav : ℚ) : FactoryState :=
  { st with gravity_ := grav }

/-- The loop of `SolidFactory::update_object_gravity` at registry position `i`:
each iteration calls `set_gravity(gravity_)` on the solid it visits; the result
is the solids after their calls and the record of the calls made (position and
value), in order. -/
def gravity_loop (g : ℚ) : List Solid → Nat → List Solid × List (Nat × ℚ)
  | [], _ => ([], [])
  | s :: rest, i =>
    let r := gravity_loop g rest (i + 1)
    (s.set_gravity g :: r.1, (i, g) :: r.2)

/-- The method `SolidFactory::update_object_gravity`: one `set_gravity` call per
registered solid, in registry order. -/
def update_object_gravity (st : FactoryState) : FactoryState :=
  let r := gravity_loop st.gravity_ st.solids 0
  { st with
    solids := r.1
    set_gravity_calls := st.set_gravity_calls ++ r.2 }

/-- The method `SolidFactory::update`.  The physics step is the engine's; it is
a parameter acting on the registered solids.  The elapsed-time bookkeeping at
the end of the method touches nothing else and is left out. -/
def update (stepSimulation : List Solid → List Solid) (st : FactoryState) : FactoryState :=
  let st1 :=
    if st.gravity_ ≠ st.last_gravity_ then
      let st2 := update_object_gravity
        { st with world_gravity := ⟨0, st.gravity_, 0⟩, info_gravity := ⟨0, st.gravity_, 0⟩ }
      { st2 with last_gravity_ := st2.gravity_ }
    else st
  { st1 with solids := stepSimulation st1.solids, steps := st1.steps + 1 }

/-- A rigid sphere solid of radius 2 at the point (0, 5, 0), with a sphere
visual declaring the alternate bounding radius 2. -/
def sample_rigid : Solid :=
  { kind := SolidKind.rigid
    graphic_item := some ⟨true, 2⟩
    body := ⟨⟨0, 0, 0⟩, 4, ⟨0, 5, 0⟩, ⟨0, 1, 0⟩, false, ⟨0, 0, 0⟩⟩
    selected := false
    has_force := false
    visible := true
    force := ⟨0, 0, 0⟩ }

/-- A deformable solid whose visual declares no alternate bounding sphere. -/
def sample_soft : Solid :=
  { kind := SolidKind.soft
    graphic_item := some ⟨false, 0⟩
    body := ⟨⟨0, 0, 0⟩, 3, ⟨1, 1, 1⟩, ⟨0, 0, 0⟩, false, ⟨0, 0, 0⟩⟩
    selected := false
    has_force := false
    visible := true
    force := ⟨0, 0, 0⟩ }

/-- A factory state in which the gravity was changed from 1 to 2 and not yet
applied, with two registered solids. -/
def sample_state : FactoryState :=
  { gravity_ := 2
    last_gravity_ := 1
    world_gravity := ⟨0, 1, 0⟩
    info_gravity := ⟨0, 1, 0⟩
    solids := [sample_rigid, sample_soft]
    steps := 0
    set_gravity_calls := [] }

/-! ## `Solid::detect_selection` -/

/-- Vector subtraction of `ci::Vec3f`. -/
def Vec3f.sub (a b : Vec3f) : Vec3f := ⟨a.x - b.x, a.y - b.y, a.z - b.z⟩

/-- Vector addition of `ci::Vec3f`. -/
def Vec3f.add (a b : Vec3f) : Vec3f := ⟨a.x + b.x, a.y + b.y, a.z + b.z⟩

/-- Scaling of a `ci::Vec3f` by a scalar. -/
def Vec3f.scale (a : Vec3f) (k : ℚ) : Vec3f := ⟨a.x * k, a.y * k, a.z * k⟩

/-- The method `Vec3f::dot`. -/
def Vec3f.dot (a b : Vec3f) : ℚ := a.x * b.x + a.y * b.y + a.z * b.z

/-- The ray type `ci::Ray`: origin and direction. -/
structure Ray where
  origin : Vec3f
  direction : Vec3f
deriving DecidableEq

/-- The method `Solid::detect_selection`.  The visual is dereferenced without a
null test, so a solid without a visual gives `none`. -/
def Solid.detect_selection (s : Solid) (r : Ray) : Option Bool :=
  let center := s.body.bounding_center.add s.body.origin
  match s.graphic_item with
  | none => none
  | some item =>
    let radius :=
      if item.has_alternate_bounding_sphere then item.bounding_sphere_radius
      else s.body.bounding_radius
    let dst := r.origin.sub center
    let B := dst.dot r.direction
    let C := dst.dot dst - radius * radius
    let D := B * B - C
    some (decide (D > 0))

/-- The claim's discriminant `((o-c)·d)^2 - ((o-c)·(o-c) - r^2)` of the ray with
origin `o` and direction `d` against the sphere with centre `c` and radius
`r`, written out in coordinates. -/
def ray_sphere_discriminant (o d c : Vec3f) (r : ℚ) : ℚ :=
  ((o.x - c.x) * d.x + (o.y - c.y) * d.y + (o.z - c.z) * d.z) ^ 2 -
    ((o.x - c.x) ^ 2 + (o.y - c.y) ^ 2 + (o.z - c.z) ^ 2 - r ^ 2)

/-! ## `SolidFactory::create_rigid_sphere_spring_matrix` -/

/-- A body made by `create_bullet_rigid_sphere(position, radius)`. -/
structure RigidSphere where
  position : Vec3f
  radius : ℚ
deriving DecidableEq

/-- One call `spring_link_rigid_spheres(r1, r2, p1, p2)`; the two bodies are
named by their lattice cells. -/
structure SpringLinkCall where
  r1 : Nat × Nat × Nat
  r2 : Nat × Nat × Nat
  p1 : Vec3f
  p2 : Vec3f
deriving DecidableEq

/-- What `create_rigid_sphere_spring_matrix` leaves behind: the bodies created,
in creation order (one solid is pushed to the returned deque per body), and the
spring-link calls made, in call order. -/
structure SpringMatrix where
  bodies : List RigidSphere
  links : List SpringLinkCall
deriving DecidableEq

/-- The point `p` computed for cell `(i, j, k)` in the rigid lattices:
`position + xgap*i + ygap*j + zgap*k + xdiam*i + ydiam*j + zdiam*k` with
`gap = r * 0.3` and `r = radius.x`. -/
def rigid_cell_position (position radius : Vec3f) (i j k : Nat) : Vec3f :=
  let r := radius.x
  let gap := r * (3 / 10)
  let xgap : Vec3f := ⟨gap, 0, 0⟩
  let ygap : Vec3f := ⟨0, gap, 0⟩
  let zgap : Vec3f := ⟨0, 0, gap⟩
  let xdiam : Vec3f := ⟨r * 2, 0, 0⟩
  let ydiam : Vec3f := ⟨0, r * 2, 0⟩
  let zdiam : Vec3f := ⟨0, 0, r * 2⟩
  (((((position.add (xgap.scale i)).add (ygap.scale j)).add (zgap.scale k)).add
    (xdiam.scale i)).add (ydiam.scale j)).add (zdiam.scale k)

/-- The three `resize` cascades at the head of the function: a negative count
converted to `size_t` exceeds `max_size()` and `resize` throws.  The inner
resizes run only inside the loops over the outer dimensions. -/
def lattice_resize_ok (w h d : Int) : Bool :=
  decide (0 ≤ w) && (decide (w = 0) || (decide (0 ≤ h) && (decide (h = 0) || decide (0 ≤ d))))

/-- The body-creation loop nest (`i` outermost, `k` innermost). -/
def rigid_lattice_bodies (position radius : Vec3f) (w h d : Nat) : List RigidSphere :=
  (List.range w).flatMap fun i => (List.range h).flatMap fun j => (List.range d).map fun k =>
    ⟨rigid_cell_position position radius i j k, radius.x⟩

/-- The body of the linking loop nest at cell `(i, j, k)`: up to three calls of
`spring_link_rigid_spheres`, to the previous cell along each axis. -/
def spring_links_at (position radius : Vec3f) (i j k : Nat) : List SpringLinkCall :=
  (if 0 < i then
      [⟨(i - 1, j, k), (i, j, k), rigid_cell_position position radius (i - 1) j k,
        rigid_cell_position position radius i j k⟩]
    else []) ++
  (if 0 < j then
      [⟨(i, j - 1, k), (i, j, k), rigid_cell_position position radius i (j - 1) k,
        rigid_cell_position position radius i j k⟩]
    else []) ++
  (if 0 < k then
      [⟨(i, j, k - 1), (i, j, k), rigid_cell_position position radius i j (k - 1),
        rigid_cell_position position radius i j k⟩]
    else [])

/-- The linking loop nest. -/
def spring_link_loop (position radius : Vec3f) (w h d : Nat) : List SpringLinkCall :=
  (List.range w).flatMap fun i => (List.range h).flatMap fun j => (List.range d).flatMap fun k =>
    spring_links_at position radius i j k

/-- The function `SolidFactory::create_rigid_sphere_spring_matrix`; `none` when
a `resize` throws. -/
def create_rigid_sphere_spring_matrix (position radius : Vec3f) (w h d : Int) :
    Option SpringMatrix :=
  if lattice_resize_ok w h d then
    some ⟨rigid_lattice_bodies position radius w.toNat h.toNat d.toNat,
      spring_link_loop position radius w.toNat h.toNat d.toNat⟩
  else none

/-! ## Node masses in `SolidFactory::create_soft_mesh` -/

/-- The engine call `btSoftBody::setMass(node, mass)` on the vector of node
masses; a node index outside the vector is undefined. -/
def setMass (nodes : List ℚ) (node : Nat) (mass : ℚ) : Option (List ℚ) :=
  if node < nodes.length then some (nodes.set node mass) else none

/-- The loop `for (i = 0; i < m_nodes.size(); ++i) setMass(i, 1.0f)`. -/
def uniform_mass_loop (nodes : List ℚ) : Option (List ℚ) :=
  (List.range nodes.length).foldlM (fun ns i => setMass ns i 1) nodes

/-- The `std::for_each` over the anchors: `setMass(index, 0.0f)`. -/
def anchor_mass_loop (anchors : List Nat) (nodes : List ℚ) : Option (List ℚ) :=
  anchors.foldlM (fun ns i => setMass ns i 0) nodes

/-- The function `SolidFactory::create_soft_mesh`, reduced to the node masses of
the body it creates.  `CreateFromTriMesh` is the engine's constructor: it gives
the node masses of the body built from the deduplicated mesh (one entry per
node).  The material settings and `scale` do not touch the masses. -/
def create_soft_mesh (CreateFromTriMesh : TriMesh → List ℚ) (is_pointed_up : Bool)
    (in_mesh : TriMesh) (lock_base_vertices : Bool) : Option (List ℚ) :=
  match remove_mesh_duplicates in_mesh with
  | none => none
  | some mesh =>
    match uniform_mass_loop (CreateFromTriMesh mesh) with
    | none => none
    | some nodes =>
      if lock_base_vertices then anchor_mass_loop (get_top_vertices is_pointed_up mesh) nodes
      else some nodes

/-- An engine constructor for the examples: one node of mass 7 per vertex. -/
def sample_engine (mesh : TriMesh) : List ℚ := List.replicate mesh.vertices.length 7

/-! ## Selection, force and gravity of a single solid -/

/-- A request made to the force-editing panel: `ForceMenu::add_menu(*this)`
(attach) or `ForceMenu::remove_menu()` (detach). -/
inductive MenuRequest where
  | add_menu
  | remove_menu
deriving DecidableEq

/-- The method `Solid::select`. -/
def Solid.select (s : Solid) : Solid :=
  { s with selected := !s.selected }

/-- The method `Solid::set_selected`. -/
def Solid.set_selected (s : Solid) (b : Bool) : Solid :=
  { s with selected := b }

/-- The method `Solid::remove_force`. -/
def Solid.remove_force (s : Solid) : Solid :=
  { s with has_force := false }

/-- The method `SoftSolid::select`, with the static flags
`Solid::allow_selection_` and `Solid::allow_forces_` passed in; it returns the
solid afterwards and the panel requests issued, in order. -/
def SoftSolid.select (allow_selection allow_forces : Bool) (s : Solid) :
    Solid × List MenuRequest :=
  if !allow_selection then (s, [])
  else
    let s1 := Solid.select s
    if s1.selected then
      if allow_forces then (s1, [MenuRequest.add_menu]) else (s1, [])
    else (s1, [MenuRequest.remove_menu])

/-- The method `SoftSolid::set_selected`. -/
def SoftSolid.set_selected (allow_selection allow_forces : Bool) (s : Solid) (b : Bool) :
    Solid × List MenuRequest :=
  if b then SoftSolid.select allow_selection allow_forces s
  else (Solid.set_selected s b, [])

/-- The method `SoftSolid::set_force`. -/
def SoftSolid.set_force (s : Solid) (vel : Vec3f) : Solid :=
  { s with has_force := true, force := vel }

/-- The method `SoftSolid::update`; `setVelocity` writes the body velocity. -/
def SoftSolid.update (s : Solid) : Solid :=
  if !s.has_force then s
  else { s with body := { s.body with velocity := s.force } }

/-! ## `SolidFactory::spring_link_rigid_spheres` -/

/-- Division of a `ci::Vec3f` by a scalar. -/
def Vec3f.div (a : Vec3f) (k : ℚ) : Vec3f := ⟨a.x / k, a.y / k, a.z / k⟩

/-- One degree of freedom of a `btGeneric6DofSpringConstraint` as this code
leaves it: whether `enableSpring` switched it on, and the values given to
`setStiffness` and `setDamping` (`none` while the call was never made and the
engine default stands). -/
structure SpringDof where
  enabled : Bool
  stiffness : Option ℚ
  damping : Option ℚ
deriving DecidableEq

/-- The constraint object: the origins of the two frames, the four limits
(`none` while not set by this code) and the six degrees of freedom. -/
structure SpringConstraint where
  frameInA_origin : Vec3f
  frameInB_origin : Vec3f
  linear_upper : Option Vec3f
  linear_lower : Option Vec3f
  angular_lower : Option Vec3f
  angular_upper : Option Vec3f
  dofs : List SpringDof
deriving DecidableEq

/-- Write to one entry of the per-axis arrays of the constraint. -/
def modify_dof (f : SpringDof → SpringDof) : List SpringDof → Nat → List SpringDof
  | [], _ => []
  | d :: rest, 0 => f d :: rest
  | d :: rest, i + 1 => d :: modify_dof f rest i

/-- The engine call `enableSpring(index, onOff)`. -/
def SpringConstraint.enableSpring (c : SpringConstraint) (index : Nat) (onOff : Bool) :
    SpringConstraint :=
  { c with dofs := modify_dof (fun d => { d with enabled := onOff }) c.dofs index }

/-- The engine call `setStiffness(index, stiffness)`. -/
def SpringConstraint.setStiffness (c : SpringConstraint) (index : Nat) (stiffness : ℚ) :
    SpringConstraint :=
  { c with dofs := modify_dof (fun d => { d with stiffness := some stiffness }) c.dofs index }

/-- The engine call `setDamping(index, damping)`. -/
def SpringConstraint.setDamping (c : SpringConstraint) (index : Nat) (damping : ℚ) :
    SpringConstraint :=
  { c with dofs := modify_dof (fun d => { d with damping := some damping }) c.dofs index }

/-- One iteration of the loop `for (int i = 0; i < 6; ++i)` of
`spring_link_rigid_spheres`: `enableSpring(i, true)`, `setStiffness(0, 20.f)`,
`setDamping(i, 0.1f)`. -/
def spring_dof_step (c : SpringConstraint) (i : Nat) : SpringConstraint :=
  ((c.enableSpring i true).setStiffness 0 20).setDamping i (1 / 10)

/-- The function `SolidFactory::spring_link_rigid_spheres`, giving the
constraint it builds and adds to the world.  The closing
`setEquilibriumPoint()` and `setDbgDrawSize` touch none of the modelled
fields. -/
def spring_link_rigid_spheres (p1 p2 : Vec3f) : SpringConstraint :=
  let dist := p2.sub p1
  let spring : SpringConstraint :=
    { frameInA_origin := dist
      frameInB_origin := ⟨0, 0, 0⟩
      linear_upper := none
      linear_lower := none
      angular_lower := none
      angular_upper := none
      dofs := List.replicate 6 ⟨false, none, none⟩ }
  let spring := { spring with linear_upper := some (dist.div 2) }
  let spring := { spring with linear_lower := some (dist.div (-2)) }
  let spring := { spring with angular_lower := some ⟨0, 0, -(3 / 2)⟩ }
  let spring := { spring with angular_upper := some ⟨0, 0, 3 / 2⟩ }
  (List.range 6).foldl spring_dof_step spring

/-! ## `SolidFactory::create_linked_soft_spheres` -/

/-- A body made by `create_bullet_soft_sphere(position, radius, res)`: the
ellipsoid the engine builds around `center`. -/
structure SoftSphere where
  center : Vec3f
  radius : Vec3f
  res : ℚ
deriving DecidableEq

/-- The function `SolidFactory::create_bullet_soft_sphere`. -/
def create_bullet_soft_sphere (position radius : Vec3f) (res : ℚ) : SoftSphere :=
  ⟨position, radius, res⟩

/-- A linear joint appended by `s1->appendLinearJoint(lj, s2)`. -/
structure SocketJoint where
  cfm : ℚ
  erp : ℚ
  position : Vec3f
  s1 : SoftSphere
  s2 : SoftSphere
deriving DecidableEq

/-- The function `SolidFactory::socket_link_soft_spheres`. -/
def socket_link_soft_spheres (s1 s2 : SoftSphere) (p1 p2 : Vec3f) : SocketJoint :=
  { cfm := 1, erp := 1, position := (p1.add p2).div 2, s1 := s1, s2 := s2 }

/-- What a soft-sphere creation call leaves behind: the bodies wrapped, one
`SoftSolid` each, in the returned deque (in push order) and the joints made. -/
structure SoftSpheres where
  solids : List SoftSphere
  joints : List SocketJoint
deriving DecidableEq

/-- The function `SolidFactory::create_linked_soft_spheres`. -/
def create_linked_soft_spheres (position radius : Vec3f) : SoftSpheres :=
  let offset : Vec3f := ⟨0, radius.x * (11 / 10), 0⟩
  let p1 := position.add offset
  let p2 := position.sub offset
  let sb1 := create_bullet_soft_sphere p1 radius 100
  let sb2 := create_bullet_soft_sphere p2 radius 100
  { solids := [sb1, sb2], joints := [socket_link_soft_spheres sb1 sb2 p1 p2] }

/-! ## `SolidFactory::create_soft_sphere_matrix` and `create_rigid_sphere_matrix` -/

/-- The point `p` computed for cell `(i, j, k)` in `create_soft_sphere_matrix`:
`gap = r * 0.4`, and `ygap` and `ydiam` are multiplied by `-1` when
`MeshCreator::instance().is_pointed_up()` holds. -/
def soft_cell_position (is_pointed_up : Bool) (position radius : Vec3f) (i j k : Nat) : Vec3f :=
  let r := radius.x
  let gap := r * (4 / 10)
  let xgap : Vec3f := ⟨gap, 0, 0⟩
  let ygap : Vec3f := ⟨0, gap, 0⟩
  let zgap : Vec3f := ⟨0, 0, gap⟩
  let xdiam : Vec3f := ⟨r * 2, 0, 0⟩
  let ydiam : Vec3f := ⟨0, r * 2, 0⟩
  let zdiam : Vec3f := ⟨0, 0, r * 2⟩
  let ygap := if is_pointed_up then ygap.scale (-1) else ygap
  let ydiam := if is_pointed_up then ydiam.scale (-1) else ydiam
  (((((position.add (xgap.scale i)).add (ygap.scale j)).add (zgap.scale k)).add
    (xdiam.scale i)).add (ydiam.scale j)).add (zdiam.scale k)

/-- The body-creation loop nest of `create_soft_sphere_matrix` (`resolution`
is 50). -/
def soft_lattice_bodies (is_pointed_up : Bool) (position radius : Vec3f) (w h d : Nat) :
    List SoftSphere :=
  (List.range w).flatMap fun i => (List.range h).flatMap fun j => (List.range d).map fun k =>
    create_bullet_soft_sphere (soft_cell_position is_pointed_up position radius i j k) radius 50

/-- The function `SolidFactory::create_soft_sphere_matrix`; `none` when a
`resize` throws.  The linking loop nest is commented out in the source, so no
joint is made. -/
def create_soft_sphere_matrix (is_pointed_up : Bool) (position radius : Vec3f) (w h d : Int) :
    Option SoftSpheres :=
  if lattice_resize_ok w h d then
    some { solids := soft_lattice_bodies is_pointed_up position radius w.toNat h.toNat d.toNat
           joints := [] }
  else none

/-- The function `SolidFactory::create_rigid_sphere_matrix`, giving the bodies
wrapped in the returned deque; `none` when a `resize` throws.  The function
never reads `MeshCreator::instance().is_pointed_up()`; the flag is a parameter
only so that statements can range over it. -/
def create_rigid_sphere_matrix (_is_pointed_up : Bool) (position radius : Vec3f) (w h d : Int) :
    Option (List RigidSphere) :=
  if lattice_resize_ok w h d then
    some (rigid_lattice_bodies position radius w.toNat h.toNat d.toNat)
  else none

/-- The claim's lattice point `pos + (2r + gap) * (i, s*j, k)`, in coordinates. -/
def lattice_point (position : Vec3f) (r gap s : ℚ) (i j k : Nat) : Vec3f :=
  ⟨position.x + (2 * r + gap) * i, position.y + (2 * r + gap) * (s * j),
    position.z + (2 * r + gap) * k⟩

/-! ## Destruction of a rigid solid, and operation sequences on a deformable solid -/

/-- The effects a destructor performs on the engine and on owned objects. -/
inductive DestroyEffect where
  | delete_motion_state
  | delete_collision_shape
  | remove_rigid_body
  | delete_graphic_item
  | delete_body
deriving DecidableEq

/-- The destructor `Solid::~Solid`: the visual is deleted when the pointer is
not null, then the body. -/
def Solid.destroy (s : Solid) : List DestroyEffect :=
  (if s.graphic_item.isSome then [DestroyEffect.delete_graphic_item] else []) ++
    [DestroyEffect.delete_body]

/-- The destructor `RigidSolid::~RigidSolid` followed, as C++ does, by the base
destructor.  The two flags say whether `getMotionState()` and
`getCollisionShape()` are non-null. -/
def RigidSolid.destroy (has_motion_state has_collision_shape : Bool) (s : Solid) :
    List DestroyEffect :=
  (if has_motion_state then [DestroyEffect.delete_motion_state] else []) ++
    (if has_collision_shape then [DestroyEffect.delete_collision_shape] else []) ++
    [DestroyEffect.remove_rigid_body] ++ Solid.destroy s

/-- The calls the claims on a deformable solid range over. -/
inductive SoftOp where
  | select
  | set_selected (b : Bool)
  | set_force (vel : Vec3f)
  | update

/-- One call on a deformable solid, under fixed static flags (the panel
requests are dropped). -/
def SoftOp.apply (allow_selection allow_forces : Bool) (s : Solid) : SoftOp → Solid
  | SoftOp.select => (SoftSolid.select allow_selection allow_forces s).1
  | SoftOp.set_selected b => (SoftSolid.set_selected allow_selection allow_forces s b).1
  | SoftOp.set_force vel => SoftSolid.set_force s vel
  | SoftOp.update => SoftSolid.update s

/-- A sequence of calls, left to right. -/
def SoftOp.run (allow_selection allow_forces : Bool) (s : Solid) (ops : List SoftOp) : Solid :=
  ops.foldl (SoftOp.apply allow_selection allow_forces) s

/-! ## The lookup loop of `find_indice`, with its exit recorded -/

/-- The `for` loop of the lambda `find_indice` from position `i` on, recording
how it ends: `some i` when it returns from inside the loop at position `i`,
`none` when it runs off the end and control reaches the fallback `return 0`. -/
def find_indice_scan (val : Vec3f) : List Vec3f → Nat → Option Nat
  | [], _ => none
  | v :: rest, i => if v = val then some i else find_indice_scan val rest (i + 1)

/-! ## `JointCell::JointCell` -/

/-- The two concrete joint classes. -/
inductive JointKind where
  | hinge
  | socket
deriving DecidableEq

/-- A `Joint`, reduced to its kind and its two anchor positions. -/
structure Joint where
  kind : JointKind
  a_position : Vec3f
  b_position : Vec3f
deriving DecidableEq

/-- The class `JointCell` with its data members (`color_` as four channels). -/
structure JointCell where
  joints : List Joint
  color : ℚ × ℚ × ℚ × ℚ
  triangles : List (List Vec3f)
  normals : List Vec3f
deriving DecidableEq

/-- The call `std::vector::resize(n)`: cut to `n` elements or fill up with
value-initialised ones. -/
def vector_resize (l : List Vec3f) (n : Nat) : List Vec3f :=
  (l ++ List.replicate (n - l.length) default).take n

/-- One iteration of the constructor loop:
`triangles_.push_back(std::vector<ci::Vec3f>()); triangles_[i].resize(3);`
(`none` if `triangles_[i]` were outside the vector). -/
def joint_cell_step (triangles : Option (List (List Vec3f))) (i : Nat) :
    Option (List (List Vec3f)) :=
  match triangles with
  | none => none
  | some ts =>
    let ts1 := ts ++ [[]]
    match ts1[i]? with
    | none => none
    | some t => some (ts1.set i (vector_resize t 3))

/-- The constructor `JointCell::JointCell(std::vector<JointPtr> joints)`. -/
def JointCell.new (joints : List Joint) : Option JointCell :=
  match (List.range 6).foldl joint_cell_step (some []) with
  | none => none
  | some ts =>
    some { joints := joints
           color := (9 / 10, 9 / 10, 9 / 10, 1)
           triangles := ts
           normals := vector_resize [] 6 }

/-- A flat mesh: one triangle whose three vertices all have height 2. -/
def flat_mesh : TriMesh :=
  ⟨[⟨0, 2, 0⟩, ⟨1, 2, 0⟩, ⟨0, 2, 1⟩], [0, 1, 2]⟩

/-- A mesh of binary32 heights `0`, `0.09f` and `0.1f` (the `float` values of
the decimal literals), no triangles. -/
def band_edge_mesh : TriMesh :=
  ⟨[⟨0, 0, 0⟩, ⟨0, 3019899 / 33554432, 0⟩, ⟨0, 13421773 / 134217728, 0⟩], []⟩

/-- A nearly flat mesh: binary32 heights `1000` and the next `float` above it,
`1000 + 2^(-14)`, no triangles. -/
def near_flat_mesh : TriMesh :=
  ⟨[⟨0, 1000, 0⟩, ⟨0, 16384001 / 16384, 0⟩], []⟩

/-! # Theorems -/

/-! ## Vertex reduction -/

theorem reduce_fold (vs : List Vec3f) : ∀ acc : List Vec3f,
    vs.foldl reduce_step (acc, acc) =
      (acc ++ (keep_first vs).filter (fun u => decide (u ∉ acc)),
       acc ++ (keep_first vs).filter (fun u => decide (u ∉ acc))) := by
  induction vs with
  | nil => intro acc; simp [keep_first]
  | cons v rest ih =>
    intro acc
    by_cases hv : v ∈ acc
    · have hstep : reduce_step (acc, acc) v = (acc, acc) := by simp [reduce_step, hv]
      have hf : ((keep_first rest).filter (fun u => decide (u ≠ v))).filter
          (fun u => decide (u ∉ acc)) = (keep_first rest).filter (fun u => decide (u ∉ acc)) := by
        rw [List.filter_filter]
        apply List.filter_congr
        intro u _
        by_cases hu : u ∈ acc
        · simp [hu]
        · have : u ≠ v := fun h => hu (h ▸ hv)
          simp [hu, this]
      simp only [List.foldl_cons, hstep, ih acc, keep_first]
      rw [List.filter_cons_of_neg (by simpa using hv), hf]
    · have hstep : reduce_step (acc, acc) v = (acc ++ [v], acc ++ [v]) := by
        simp [reduce_step, hv]
      have hf : (keep_first rest).filter (fun u => decide (u ∉ acc ++ [v])) =
          ((keep_first rest).filter (fun u => decide (u ≠ v))).filter
            (fun u => decide (u ∉ acc)) := by
        rw [List.filter_filter]
        apply List.filter_congr
        intro u _
        by_cases hu : u ∈ acc <;> by_cases huv : u = v <;> simp [hu, huv]
      simp only [List.foldl_cons, hstep, ih (acc ++ [v]), keep_first]
      rw [List.filter_cons_of_pos (by simpa using hv), hf]
      simp

theorem reduce_loop_eq (vs : List Vec3f) : reduce_loop vs = (keep_first vs, keep_first vs) := by
  have h := reduce_fold vs []
  simpa [reduce_loop] using h

theorem mem_keep_first (vs : List Vec3f) (u : Vec3f) : u ∈ keep_first vs ↔ u ∈ vs := by
  induction vs with
  | nil => simp [keep_first]
  | cons v rest ih =>
    simp only [keep_first, List.mem_cons, List.mem_filter, ih]
    by_cases h : u = v <;> simp [h]

theorem nodup_keep_first (vs : List Vec3f) : (keep_first vs).Nodup := by
  induction vs with
  | nil => simp [keep_first]
  | cons v rest ih =>
    simp only [keep_first, List.nodup_cons]
    exact ⟨by simp [List.mem_filter], ih.filter _⟩

theorem keep_first_sublist (vs : List Vec3f) : (keep_first vs).Sublist vs := by
  induction vs with
  | nil => simp [keep_first]
  | cons v rest ih =>
    simp only [keep_first]
    exact ((List.filter_sublist _).trans ih).cons₂ v

theorem keep_first_order (vs : List Vec3f) :
    (keep_first vs).Pairwise (fun u w => vs.indexOf u < vs.indexOf w) := by
  induction vs with
  | nil => simp [keep_first]
  | cons v rest ih =>
    simp only [keep_first, List.pairwise_cons]
    constructor
    · intro w hw
      have hwv : w ≠ v := by simpa using (List.mem_filter.mp hw).2
      rw [List.indexOf_cons_self, List.indexOf_cons_ne _ (Ne.symm hwv)]
      exact Nat.succ_pos _
    · have h1 : ((keep_first rest).filter (fun u => decide (u ≠ v))).Pairwise
          (fun u w => rest.indexOf u < rest.indexOf w) :=
        List.Pairwise.sublist (List.filter_sublist _) ih
      refine h1.imp_of_mem ?_
      intro a b ha hb hab
      have hav : a ≠ v := by simpa using (List.mem_filter.mp ha).2
      have hbv : b ≠ v := by simpa using (List.mem_filter.mp hb).2
      rw [List.indexOf_cons_ne _ (Ne.symm hav), List.indexOf_cons_ne _ (Ne.symm hbv)]
      exact Nat.succ_lt_succ hab

theorem drop_equal_to_earlier_eq (vs : List Vec3f) : ∀ earlier : List Vec3f,
    drop_equal_to_earlier earlier vs =
      (keep_first vs).filter (fun u => decide (u ∉ earlier)) := by
  induction vs with
  | nil => intro e; simp [drop_equal_to_earlier, keep_first]
  | cons v rest ih =>
    intro e
    have hf : (keep_first rest).filter (fun u => decide (u ∉ e ++ [v])) =
        ((keep_first rest).filter (fun u => decide (u ≠ v))).filter
          (fun u => decide (u ∉ e)) := by
      rw [List.filter_filter]
      apply List.filter_congr
      intro u _
      by_cases hu : u ∈ e <;> by_cases huv : u = v <;> simp [hu, huv]
    by_cases hv : v ∈ e
    · simp only [drop_equal_to_earlier, hv, if_true, ih, keep_first]
      rw [List.filter_cons_of_neg (by simpa using hv), hf]
    · simp only [drop_equal_to_earlier, hv, if_false, ih, keep_first]
      rw [List.filter_cons_of_pos (by simpa using hv), hf]

theorem remove_equal_to_earlier_eq (vs : List Vec3f) :
    remove_equal_to_earlier vs = keep_first vs := by
  simp [remove_equal_to_earlier, drop_equal_to_earlier_eq]

/-! ## Index lookup -/

theorem find_indice_from_mem (val : Vec3f) (l : List Vec3f) :
    ∀ i, val ∈ l → find_indice_from val l i = i + l.indexOf val := by
  induction l with
  | nil => intro i h; simp at h
  | cons v rest ih =>
    intro i h
    by_cases hv : v = val
    · simp [find_indice_from, hv]
    · have hm : val ∈ rest := by
        rcases List.mem_cons.mp h with h | h
        · exact absurd h.symm hv
        · exact h
      simp only [find_indice_from, hv, if_false, ih (i + 1) hm, List.indexOf_cons_ne _ hv]
      omega

theorem find_indice_from_not_mem (val : Vec3f) (l : List Vec3f) :
    ∀ i, val ∉ l → find_indice_from val l i = 0 := by
  induction l with
  | nil => intro i _; rfl
  | cons v rest ih =>
    intro i h
    have hv : v ≠ val := fun e => h (e ▸ List.mem_cons_self _ _)
    have hm : val ∉ rest := fun e => h (List.mem_cons_of_mem _ e)
    simp [find_indice_from, hv, ih (i + 1) hm]

theorem find_indice_mem (vec : List Vec3f) (val : Vec3f) (h : val ∈ vec) :
    find_indice vec val = vec.indexOf val := by
  simp [find_indice, find_indice_from_mem val vec 0 h]

theorem find_indice_get (vec : List Vec3f) (val : Vec3f) (h : val ∈ vec) :
    vec[find_indice vec val]? = some val := by
  rw [find_indice_mem vec val h]
  have hlt : vec.indexOf val < vec.length := List.indexOf_lt_length.mpr h
  rw [List.getElem?_eq_getElem hlt]
  simp

/-! ## Re-indexing -/

theorem reindex_eq_some (vs vr : List Vec3f) (idx out : List Nat) :
    reindex vs vr idx = some out ↔
      idx.length % 3 = 0 ∧ (∀ i ∈ idx, i < vs.length) ∧
        out = idx.map (fun i => find_indice vr (vs.getD i default)) := by
  induction idx using reindex.induct vs vr generalizing out with
  | case1 => simp [reindex, eq_comm]
  | case2 a b c rest va vb vc hc hb ha tl htl ih =>
    have ih2 := ih tl
    simp only [htl, true_iff] at ih2
    obtain ⟨h3, hlt, htl2⟩ := ih2
    have hla := (List.getElem?_eq_some_iff.mp ha).1
    have hlb := (List.getElem?_eq_some_iff.mp hb).1
    have hlc := (List.getElem?_eq_some_iff.mp hc).1
    have ga : vs.getD a default = va := by simp [List.getD, ha]
    have gb : vs.getD b default = vb := by simp [List.getD, hb]
    have gc : vs.getD c default = vc := by simp [List.getD, hc]
    simp only [reindex, ha, hb, hc, htl, Option.some.injEq, List.length_cons, List.mem_cons,
      List.map_cons, ga, gb, gc, ← htl2]
    constructor
    · intro h
      refine ⟨by omega, ?_, h.symm⟩
      rintro i (h | h | h | h)
      · exact h ▸ hla
      · exact h ▸ hlb
      · exact h ▸ hlc
      · exact hlt i h
    · rintro ⟨_, _, h⟩
      exact h.symm
  | case3 a b c rest va vb vc hc hb ha htl ih =>
    have ih2 := fun o => ih o
    simp only [htl, false_iff, reduceCtorEq] at ih2
    simp only [reindex, ha, hb, hc, htl, false_iff, reduceCtorEq, List.length_cons, List.mem_cons]
    rintro ⟨h3, hlt, _⟩
    exact ih2 _ ⟨by omega, fun i hi => hlt i (by simp [hi]), rfl⟩
  | case4 a b c rest hnone =>
    have hr : reindex vs vr (a :: b :: c :: rest) = none := by
      unfold reindex
      split
      · rename_i va vb vc ha hb hc
        exact (hnone va vb vc ha hb hc).elim
      · rfl
    simp only [hr, false_iff, reduceCtorEq, List.mem_cons]
    rintro ⟨_, hlt, _⟩
    have hla := hlt a (Or.inl rfl)
    have hlb := hlt b (Or.inr (Or.inl rfl))
    have hlc := hlt c (Or.inr (Or.inr (Or.inl rfl)))
    exact hnone _ _ _ (List.getElem?_eq_getElem hla) (List.getElem?_eq_getElem hlb)
      (List.getElem?_eq_getElem hlc)
  | case5 idx h1 h2 =>
    have hr : reindex vs vr idx = none := by
      unfold reindex
      split
      · exact (h1 rfl).elim
      · rename_i a b c rest
        exact (h2 a b c rest rfl).elim
      · rfl
    simp only [hr, false_iff, reduceCtorEq]
    rintro ⟨h3, _, _⟩
    match idx, h1, h2, h3 with
    | [], h1, _, _ => exact h1 rfl
    | [_], _, _, h3 => simp at h3
    | [_, _], _, _, h3 => simp at h3
    | a :: b :: c :: rest, _, h2, _ => exact h2 a b c rest rfl

theorem keep_first_of_nodup (l : List Vec3f) (h : l.Nodup) : keep_first l = l := by
  induction l with
  | nil => rfl
  | cons v rest ih =>
    have hn := List.nodup_cons.mp h
    simp only [keep_first, ih hn.2]
    congr 1
    apply List.filter_eq_self.mpr
    intro u hu
    have : u ≠ v := fun e => hn.1 (e ▸ hu)
    simpa using this

theorem remove_mesh_duplicates_eq_some (m out : TriMesh) :
    remove_mesh_duplicates m = some out ↔ m.WellFormed ∧ out = dedup_result m := by
  unfold remove_mesh_duplicates
  simp only [reduce_loop_eq]
  cases hr : reindex m.vertices (keep_first m.vertices) m.indices with
  | none =>
    simp only [false_iff, reduceCtorEq]
    rintro ⟨⟨h3, hlt⟩, _⟩
    have := (reindex_eq_some m.vertices (keep_first m.vertices) m.indices _).mpr ⟨h3, hlt, rfl⟩
    rw [hr] at this
    exact Option.noConfusion this
  | some idx =>
    obtain ⟨h3, hlt, hidx⟩ := (reindex_eq_some _ _ _ _).mp hr
    simp only [Option.some.injEq]
    constructor
    · intro h
      refine ⟨⟨h3, hlt⟩, ?_⟩
      rw [← h, hidx]
      rfl
    · rintro ⟨_, h⟩
      rw [h, hidx]
      rfl

theorem remove_mesh_duplicates_of_wf (m : TriMesh) (h : m.WellFormed) :
    remove_mesh_duplicates m = some (dedup_result m) :=
  (remove_mesh_duplicates_eq_some m _).mpr ⟨h, rfl⟩

theorem getD_mem (vs : List Vec3f) (i : Nat) (h : i < vs.length) :
    vs.getD i default ∈ vs := by
  have : vs.getD i default = vs[i] := by simp [List.getD, List.getElem?_eq_getElem h]
  rw [this]
  exact List.getElem_mem h

theorem dedup_result_wf (m : TriMesh) (h : m.WellFormed) : (dedup_result m).WellFormed := by
  refine ⟨by simpa [dedup_result] using h.1, ?_⟩
  intro j hj
  simp only [dedup_result, List.mem_map] at hj
  obtain ⟨i, hi, rfl⟩ := hj
  have hm : m.vertices.getD i default ∈ keep_first m.vertices :=
    (mem_keep_first _ _).mpr (getD_mem _ _ (h.2 i hi))
  rw [find_indice_mem _ _ hm]
  exact List.indexOf_lt_length.mpr hm

theorem dedup_result_idem (m : TriMesh) (h : m.WellFormed) :
    dedup_result (dedup_result m) = dedup_result m := by
  have hk : keep_first (keep_first m.vertices) = keep_first m.vertices :=
    keep_first_of_nodup _ (nodup_keep_first _)
  simp only [dedup_result, hk, List.map_map, TriMesh.mk.injEq, true_and]
  apply List.map_congr_left
  intro i hi
  have hm : m.vertices.getD i default ∈ keep_first m.vertices :=
    (mem_keep_first _ _).mpr (getD_mem _ _ (h.2 i hi))
  simp only [Function.comp]
  have hg := find_indice_get _ _ hm
  have : (keep_first m.vertices).getD
      (find_indice (keep_first m.vertices) (m.vertices.getD i default)) default =
      m.vertices.getD i default := by
    simp only [List.getD_eq_getElem?_getD] at hg ⊢
    rw [hg]
    rfl
  rw [this]

/-! ## Claims on `remove_mesh_duplicates` -/

/-- C1 (dedup idempotence): for every triangle mesh (index count a multiple of
three, every index a vertex position) `remove_mesh_duplicates` returns a mesh,
and applying it to that mesh returns the very same mesh: same vertex list and
same triangle index list. -/
theorem remove_mesh_duplicates_idempotent (m : TriMesh) (h : m.WellFormed) :
    ∃ out, remove_mesh_duplicates m = some out ∧ remove_mesh_duplicates out = some out := by
  refine ⟨dedup_result m, remove_mesh_duplicates_of_wf m h, ?_⟩
  have h2 := remove_mesh_duplicates_of_wf (dedup_result m) (dedup_result_wf m h)
  rw [dedup_result_idem m h] at h2
  exact h2

theorem remove_mesh_duplicates_idempotent_witness :
    sample_mesh.WellFormed ∧
      ∃ out, remove_mesh_duplicates sample_mesh = some out ∧
        remove_mesh_duplicates out = some out :=
  ⟨by decide, remove_mesh_duplicates_idempotent sample_mesh (by decide)⟩

/-- C2 (dedup invariant): for every triangle mesh `remove_mesh_duplicates`
returns a mesh with at most as many vertices as the input and exactly as many
triangles (index count divided by three) as the input. -/
theorem remove_mesh_duplicates_counts (m : TriMesh) (h : m.WellFormed) :
    ∃ out, remove_mesh_duplicates m = some out ∧
      out.getNumVertices ≤ m.getNumVertices ∧ out.getNumTriangles = m.getNumTriangles := by
  refine ⟨dedup_result m, remove_mesh_duplicates_of_wf m h, ?_, ?_⟩
  · exact (keep_first_sublist m.vertices).length_le
  · simp [TriMesh.getNumTriangles, dedup_result]

theorem remove_mesh_duplicates_counts_witness :
    sample_mesh.WellFormed ∧
      ∃ out, remove_mesh_duplicates sample_mesh = some out ∧
        out.getNumVertices ≤ sample_mesh.getNumVertices ∧
        out.getNumTriangles = sample_mesh.getNumTriangles :=
  ⟨by decide, remove_mesh_duplicates_counts sample_mesh (by decide)⟩

/-- C3 (re-indexing preserves geometry): for every triangle mesh, every
triangle `t` and corner `c < 3`, the output index at `3t+c` points at an output
vertex whose position is that of the input vertex the input index at `3t+c`
points at. -/
theorem remove_mesh_duplicates_corner_positions (m : TriMesh) (h : m.WellFormed) :
    ∃ out, remove_mesh_duplicates m = some out ∧
      ∀ t c, c < 3 → 3 * t + c < m.indices.length →
        ∃ v, (m.indices[3 * t + c]?).bind (fun i => m.vertices[i]?) = some v ∧
          (out.indices[3 * t + c]?).bind (fun i => out.vertices[i]?) = some v := by
  refine ⟨dedup_result m, remove_mesh_duplicates_of_wf m h, ?_⟩
  intro t c _ hn
  have hi : m.indices[3 * t + c] < m.vertices.length := h.2 _ (List.getElem_mem hn)
  refine ⟨m.vertices[m.indices[3 * t + c]], ?_, ?_⟩
  · simp [List.getElem?_eq_getElem hn, List.getElem?_eq_getElem hi]
  · have hm : m.vertices[m.indices[3 * t + c]] ∈ keep_first m.vertices :=
      (mem_keep_first _ _).mpr (List.getElem_mem hi)
    have hg := find_indice_get _ _ hm
    simp [dedup_result, List.getElem?_eq_getElem hn, List.getElem?_eq_getElem hi, hg]

theorem remove_mesh_duplicates_corner_positions_witness :
    sample_mesh.WellFormed ∧
      ∃ out, remove_mesh_duplicates sample_mesh = some out ∧
        ∀ t c, c < 3 → 3 * t + c < sample_mesh.indices.length →
          ∃ v, (sample_mesh.indices[3 * t + c]?).bind (fun i => sample_mesh.vertices[i]?) = some v ∧
            (out.indices[3 * t + c]?).bind (fun i => out.vertices[i]?) = some v :=
  ⟨by decide, remove_mesh_duplicates_corner_positions sample_mesh (by decide)⟩

/-- C4 (first occurrences, in order): the vertex list returned by
`remove_mesh_duplicates` is the input vertex list with every vertex equal to an
earlier vertex removed; its vertices are pairwise distinct, they are exactly the
input positions, each occurring once, and they stand in the order of their
first occurrence in the input. -/
theorem remove_mesh_duplicates_first_occurrences (m out : TriMesh)
    (h : remove_mesh_duplicates m = some out) :
    out.vertices = remove_equal_to_earlier m.vertices ∧
      out.vertices.Nodup ∧
      (∀ v, v ∈ out.vertices ↔ v ∈ m.vertices) ∧
      (∀ v ∈ m.vertices, out.vertices.count v = 1) ∧
      out.vertices.Pairwise (fun u w => m.vertices.indexOf u < m.vertices.indexOf w) := by
  obtain ⟨_, rfl⟩ := (remove_mesh_duplicates_eq_some m out).mp h
  refine ⟨(remove_equal_to_earlier_eq _).symm, nodup_keep_first _, mem_keep_first _, ?_,
    keep_first_order _⟩
  intro v hv
  exact List.count_eq_one_of_mem (nodup_keep_first _) ((mem_keep_first _ _).mpr hv)

theorem remove_mesh_duplicates_first_occurrences_witness :
    remove_mesh_duplicates sample_mesh = some sample_mesh_reduced ∧
      (sample_mesh_reduced.vertices = remove_equal_to_earlier sample_mesh.vertices ∧
        sample_mesh_reduced.vertices.Nodup ∧
        (∀ v, v ∈ sample_mesh_reduced.vertices ↔ v ∈ sample_mesh.vertices) ∧
        (∀ v ∈ sample_mesh.vertices, sample_mesh_reduced.vertices.count v = 1) ∧
        sample_mesh_reduced.vertices.Pairwise
          (fun u w => sample_mesh.vertices.indexOf u < sample_mesh.vertices.indexOf w)) :=
  ⟨by decide,
   remove_mesh_duplicates_first_occurrences sample_mesh sample_mesh_reduced (by decide)⟩

/-! ## Rounding to binary32 -/

theorem floor_le_round_half_even (t : ℚ) : ⌊t⌋ ≤ round_half_even t := by
  unfold round_half_even
  split_ifs <;> omega

theorem round_half_even_le_floor_succ (t : ℚ) : round_half_even t ≤ ⌊t⌋ + 1 := by
  unfold round_half_even
  split_ifs <;> omega

theorem le_round_half_even (n : ℤ) (t : ℚ) (h : (n : ℚ) ≤ t) : n ≤ round_half_even t :=
  le_trans (Int.le_floor.mpr h) (floor_le_round_half_even t)

theorem round_half_even_le (n : ℤ) (t : ℚ) (h : t ≤ (n : ℚ)) : round_half_even t ≤ n := by
  rcases eq_or_lt_of_le h with h | h
  · subst h
    simp [round_half_even]
  · have hf : ⌊t⌋ < n := Int.floor_lt.mpr h
    have := round_half_even_le_floor_succ t
    omega

theorem round_half_even_near (k : ℤ) (t : ℚ) (h : |t - k| < 1 / 2) : round_half_even t = k := by
  rw [abs_lt] at h
  by_cases hk : (k : ℚ) ≤ t
  · have hf : ⌊t⌋ = k := by
      rw [Int.floor_eq_iff]
      constructor
      · exact hk
      · linarith
    unfold round_half_even
    rw [hf, if_pos (by linarith)]
  · have hf : ⌊t⌋ = k - 1 := by
      rw [Int.floor_eq_iff]
      push_cast
      constructor <;> linarith
    unfold round_half_even
    rw [hf]
    push_cast
    rw [if_neg (by linarith), if_pos (by linarith)]
    omega

theorem float_quantum_pos (a : ℚ) : 0 < float_quantum a := by
  unfold float_quantum
  positivity

theorem log_eq_of_bounds (a : ℚ) (e : ℤ) (h1 : (2 : ℚ) ^ e ≤ a) (h2 : a < (2 : ℚ) ^ (e + 1)) :
    Int.log 2 a = e := by
  have ha : 0 < a := lt_of_lt_of_le (by positivity) h1
  have h3 : e ≤ Int.log 2 a := (Int.zpow_le_iff_le_log (by norm_num) ha).mp (by exact_mod_cast h1)
  have h4 : Int.log 2 a < e + 1 := (Int.lt_zpow_iff_log_lt (by norm_num) ha).mp (by exact_mod_cast h2)
  omega

/-- Evaluation of the rounding of a magnitude from its binade and the nearest
multiple of the spacing. -/
theorem fl32_magnitude_eval (a : ℚ) (e k : ℤ) (h1 : (2 : ℚ) ^ e ≤ a)
    (h2 : a < (2 : ℚ) ^ (e + 1))
    (hk : |a / (2 : ℚ) ^ (max e (-126) - 23) - k| < 1 / 2) :
    fl32_magnitude a = k * (2 : ℚ) ^ (max e (-126) - 23) := by
  unfold fl32_magnitude float_quantum
  rw [log_eq_of_bounds a e h1 h2, round_half_even_near k _ hk]

theorem fl32_magnitude_zero : fl32_magnitude 0 = 0 := by
  simp [fl32_magnitude, round_half_even]

theorem fl32_magnitude_nonneg (a : ℚ) (ha : 0 ≤ a) : 0 ≤ fl32_magnitude a := by
  unfold fl32_magnitude
  have hq := float_quantum_pos a
  have : (0 : ℤ) ≤ round_half_even (a / float_quantum a) :=
    le_round_half_even 0 _ (by simpa using div_nonneg ha hq.le)
  have : (0 : ℚ) ≤ (round_half_even (a / float_quantum a) : ℚ) := by exact_mod_cast this
  positivity

theorem log_bounds (a : ℚ) (ha : 0 < a) :
    (2 : ℚ) ^ Int.log 2 a ≤ a ∧ a < (2 : ℚ) ^ (Int.log 2 a + 1) := by
  have h1 := Int.zpow_log_le_self (b := 2) (r := a) (by norm_num) ha
  have h2 := Int.lt_zpow_succ_log_self (b := 2) (by norm_num) a
  exact ⟨by exact_mod_cast h1, by exact_mod_cast h2⟩

theorem two_zpow_le (x y : ℤ) (h : x ≤ y) : (2 : ℚ) ^ x ≤ (2 : ℚ) ^ y :=
  zpow_le_zpow_right₀ (by norm_num) h

/-- Rounding a magnitude never passes below a binary32 magnitude under it. -/
theorem fl32_magnitude_ge (a b : ℚ) (hb : 0 < b) (hfb : fl32_magnitude b = b) (hab : b ≤ a) :
    b ≤ fl32_magnitude a := by
  have ha : 0 < a := lt_of_lt_of_le hb hab
  have hlog : Int.log 2 b ≤ Int.log 2 a := Int.log_mono_right hb hab
  obtain ⟨ha1, ha2⟩ := log_bounds a ha
  obtain ⟨hb1, hb2⟩ := log_bounds b hb
  have hqa := float_quantum_pos a
  by_cases hm : max (Int.log 2 b) (-126) = max (Int.log 2 a) (-126)
  · have hq : float_quantum b = float_quantum a := by unfold float_quantum; rw [hm]
    have hbn : b = round_half_even (b / float_quantum a) * float_quantum a := by
      have := hfb
      unfold fl32_magnitude at this
      rw [hq] at this
      exact this.symm
    have hdiv : ((round_half_even (b / float_quantum a) : ℤ) : ℚ) ≤ a / float_quantum a := by
      rw [le_div_iff₀ hqa, ← hbn]
      exact hab
    have := le_round_half_even _ _ hdiv
    have hc : ((round_half_even (b / float_quantum a) : ℤ) : ℚ) ≤
        (round_half_even (a / float_quantum a) : ℚ) := by exact_mod_cast this
    unfold fl32_magnitude
    calc b = round_half_even (b / float_quantum a) * float_quantum a := hbn
      _ ≤ round_half_even (a / float_quantum a) * float_quantum a :=
        mul_le_mul_of_nonneg_right hc hqa.le
  · have hea : max (Int.log 2 a) (-126) = Int.log 2 a := by omega
    have hlt : Int.log 2 b + 1 ≤ Int.log 2 a := by omega
    have hq : float_quantum a = (2 : ℚ) ^ (Int.log 2 a - 23) := by
      unfold float_quantum; rw [hea]
    have hpow : (2 : ℚ) ^ Int.log 2 a = ((2 ^ 23 : ℤ) : ℚ) * float_quantum a := by
      rw [hq]
      have : (2 : ℚ) ^ Int.log 2 a = (2 : ℚ) ^ (23 : ℤ) * (2 : ℚ) ^ (Int.log 2 a - 23) := by
        rw [← zpow_add₀ (by norm_num : (2 : ℚ) ≠ 0)]
        congr 1
        omega
      rw [this]
      norm_num
    have hdiv : ((2 ^ 23 : ℤ) : ℚ) ≤ a / float_quantum a := by
      rw [le_div_iff₀ hqa, ← hpow]
      exact ha1
    have := le_round_half_even _ _ hdiv
    have hc : ((2 ^ 23 : ℤ) : ℚ) ≤ (round_half_even (a / float_quantum a) : ℚ) := by
      exact_mod_cast this
    unfold fl32_magnitude
    calc b ≤ (2 : ℚ) ^ (Int.log 2 b + 1) := hb2.le
      _ ≤ (2 : ℚ) ^ Int.log 2 a := two_zpow_le _ _ hlt
      _ = ((2 ^ 23 : ℤ) : ℚ) * float_quantum a := hpow
      _ ≤ round_half_even (a / float_quantum a) * float_quantum a :=
        mul_le_mul_of_nonneg_right hc hqa.le

/-- Rounding a magnitude never passes above a binary32 magnitude over it. -/
theorem fl32_magnitude_le (a b : ℚ) (ha0 : 0 ≤ a) (hfb : fl32_magnitude b = b) (hab : a ≤ b) :
    fl32_magnitude a ≤ b := by
  rcases eq_or_lt_of_le ha0 with ha | ha
  · rw [← ha, fl32_magnitude_zero]
    exact ha ▸ hab
  have hb : 0 < b := lt_of_lt_of_le ha hab
  have hlog : Int.log 2 a ≤ Int.log 2 b := Int.log_mono_right ha hab
  obtain ⟨ha1, ha2⟩ := log_bounds a ha
  obtain ⟨hb1, hb2⟩ := log_bounds b hb
  have hqa := float_quantum_pos a
  by_cases hm : max (Int.log 2 a) (-126) = max (Int.log 2 b) (-126)
  · have hq : float_quantum b = float_quantum a := by unfold float_quantum; rw [hm]
    have hbn : b = round_half_even (b / float_quantum a) * float_quantum a := by
      have := hfb
      unfold fl32_magnitude at this
      rw [hq] at this
      exact this.symm
    have hdiv : a / float_quantum a ≤ ((round_half_even (b / float_quantum a) : ℤ) : ℚ) := by
      rw [div_le_iff₀ hqa, ← hbn]
      exact hab
    have := round_half_even_le _ _ hdiv
    have hc : (round_half_even (a / float_quantum a) : ℚ) ≤
        ((round_half_even (b / float_quantum a) : ℤ) : ℚ) := by exact_mod_cast this
    unfold fl32_magnitude
    calc round_half_even (a / float_quantum a) * float_quantum a
        ≤ round_half_even (b / float_quantum a) * float_quantum a :=
          mul_le_mul_of_nonneg_right hc hqa.le
      _ = b := hbn.symm
  · have heb : max (Int.log 2 b) (-126) = Int.log 2 b := by omega
    have hlt : max (Int.log 2 a) (-126) + 1 ≤ Int.log 2 b := by omega
    have hpow : (2 : ℚ) ^ (max (Int.log 2 a) (-126) + 1) =
        ((2 ^ 24 : ℤ) : ℚ) * float_quantum a := by
      unfold float_quantum
      have : (2 : ℚ) ^ (max (Int.log 2 a) (-126) + 1) =
          (2 : ℚ) ^ (24 : ℤ) * (2 : ℚ) ^ (max (Int.log 2 a) (-126) - 23) := by
        rw [← zpow_add₀ (by norm_num : (2 : ℚ) ≠ 0)]
        congr 1
        omega
      rw [this]
      norm_num
    have hdiv : a / float_quantum a ≤ ((2 ^ 24 : ℤ) : ℚ) := by
      rw [div_le_iff₀ hqa, ← hpow]
      exact le_trans ha2.le (two_zpow_le _ _ (by omega))
    have := round_half_even_le _ _ hdiv
    have hc : (round_half_even (a / float_quantum a) : ℚ) ≤ ((2 ^ 24 : ℤ) : ℚ) := by
      exact_mod_cast this
    unfold fl32_magnitude
    calc round_half_even (a / float_quantum a) * float_quantum a
        ≤ ((2 ^ 24 : ℤ) : ℚ) * float_quantum a := mul_le_mul_of_nonneg_right hc hqa.le
      _ = (2 : ℚ) ^ (max (Int.log 2 a) (-126) + 1) := hpow.symm
      _ ≤ (2 : ℚ) ^ Int.log 2 b := two_zpow_le _ _ hlt
      _ ≤ b := hb1

theorem fl32_neg (x : ℚ) : fl32 (-x) = -fl32 x := by
  unfold fl32
  rcases lt_trichotomy x 0 with h | h | h
  · rw [if_neg (by linarith), if_pos h]
    simp
  · subst h
    simp [fl32_magnitude_zero]
  · rw [if_pos (by linarith), if_neg (by linarith)]
    simp

theorem fl32_zero : fl32 0 = 0 := by
  simp [fl32, fl32_magnitude_zero]

theorem fl32_of_nonneg (x : ℚ) (h : 0 ≤ x) : fl32 x = fl32_magnitude x := by
  unfold fl32
  rw [if_neg (by linarith)]

theorem fl32_nonneg (x : ℚ) (h : 0 ≤ x) : 0 ≤ fl32 x := by
  rw [fl32_of_nonneg x h]
  exact fl32_magnitude_nonneg x h

/-- Rounding does not pass a binary32 number from above: for a binary32 number
`y` and any `x ≥ y`, the rounded `x` is still `≥ y`. -/
theorem le_fl32 (x y : ℚ) (hy : fl32 y = y) (h : y ≤ x) : y ≤ fl32 x := by
  rcases le_or_lt 0 x with hx | hx
  · rcases le_or_lt y 0 with hy0 | hy0
    · exact le_trans hy0 (fl32_nonneg x hx)
    · rw [fl32_of_nonneg x hx]
      rw [fl32_of_nonneg y hy0.le] at hy
      exact fl32_magnitude_ge x y hy0 hy h
  · have hy0 : y < 0 := lt_of_le_of_lt h hx
    have hy2 : fl32_magnitude (-y) = -y := by
      have := hy
      unfold fl32 at this
      rw [if_pos hy0] at this
      linarith
    have hx2 : fl32 x = -fl32_magnitude (-x) := by
      unfold fl32
      rw [if_pos hx]
    rw [hx2]
    have := fl32_magnitude_le (-x) (-y) (by linarith) hy2 (by linarith)
    linarith

/-- Rounding does not pass a binary32 number from below. -/
theorem fl32_le (x y : ℚ) (hy : fl32 y = y) (h : x ≤ y) : fl32 x ≤ y := by
  have hy2 : fl32 (-y) = -y := by rw [fl32_neg, hy]
  have := le_fl32 (-x) (-y) hy2 (by linarith)
  rw [fl32_neg] at this
  linarith

/-- Evaluation of the rounding of a positive rational in the normal range from
its binade `e` and the nearest multiple `k` of the spacing `2^(e - 23)`. -/
theorem fl32_eval (x : ℚ) (e k : ℤ) (he : -126 ≤ e) (h1 : (2 : ℚ) ^ e ≤ x)
    (h2 : x < (2 : ℚ) ^ (e + 1)) (hk : |x / (2 : ℚ) ^ (e - 23) - k| < 1 / 2) :
    fl32 x = k * (2 : ℚ) ^ (e - 23) := by
  have hx : 0 < x := lt_of_lt_of_le (by positivity) h1
  have hm : max e (-126) = e := max_eq_left he
  rw [fl32_of_nonneg x hx.le]
  have := fl32_magnitude_eval x e k h1 h2 (by rw [hm]; exact hk)
  rw [hm] at this
  exact this

/-- The integers `0, 1, ..., 11` are binary32 numbers. -/
theorem fl32_small (y : ℚ) (h : y ∈ ([0, 1, 2, 3, 4, 5, 6, 7, 8, 9, 10, 11] : List ℚ)) :
    fl32 y = y := by
  simp only [List.mem_cons, List.mem_singleton, List.not_mem_nil, or_false] at h
  rcases h with h | h | h | h | h | h | h | h | h | h | h | h <;> subst h
  · exact fl32_zero
  · rw [fl32_eval 1 0 8388608 (by norm_num) (by norm_num) (by norm_num)
      (by norm_num [abs_lt])]
    norm_num
  · rw [fl32_eval 2 1 8388608 (by norm_num) (by norm_num) (by norm_num)
      (by norm_num [abs_lt])]
    norm_num
  · rw [fl32_eval 3 1 12582912 (by norm_num) (by norm_num) (by norm_num)
      (by norm_num [abs_lt])]
    norm_num
  · rw [fl32_eval 4 2 8388608 (by norm_num) (by norm_num) (by norm_num)
      (by norm_num [abs_lt])]
    norm_num
  · rw [fl32_eval 5 2 10485760 (by norm_num) (by norm_num) (by norm_num)
      (by norm_num [abs_lt])]
    norm_num
  · rw [fl32_eval 6 2 12582912 (by norm_num) (by norm_num) (by norm_num)
      (by norm_num [abs_lt])]
    norm_num
  · rw [fl32_eval 7 2 14680064 (by norm_num) (by norm_num) (by norm_num)
      (by norm_num [abs_lt])]
    norm_num
  · rw [fl32_eval 8 3 8388608 (by norm_num) (by norm_num) (by norm_num)
      (by norm_num [abs_lt])]
    norm_num
  · rw [fl32_eval 9 3 9437184 (by norm_num) (by norm_num) (by norm_num)
      (by norm_num [abs_lt])]
    norm_num
  · rw [fl32_eval 10 3 10485760 (by norm_num) (by norm_num) (by norm_num)
      (by norm_num [abs_lt])]
    norm_num
  · rw [fl32_eval 11 3 11534336 (by norm_num) (by norm_num) (by norm_num)
      (by norm_num [abs_lt])]
    norm_num

/-! ## Anchor band -/

theorem extent_fold (vs : List Vec3f) : ∀ t b : ℚ,
    (∀ v ∈ vs, v.y ≤ (vs.foldl extent_step (t, b)).1) ∧
    t ≤ (vs.foldl extent_step (t, b)).1 ∧
    ((vs.foldl extent_step (t, b)).1 = t ∨ ∃ v ∈ vs, v.y = (vs.foldl extent_step (t, b)).1) ∧
    (∀ v ∈ vs, (vs.foldl extent_step (t, b)).2 ≤ v.y) ∧
    (vs.foldl extent_step (t, b)).2 ≤ b ∧
    ((vs.foldl extent_step (t, b)).2 = b ∨ ∃ v ∈ vs, v.y = (vs.foldl extent_step (t, b)).2) := by
  induction vs with
  | nil => intro t b; simp
  | cons v rest ih =>
    intro t b
    simp only [List.foldl_cons, List.mem_cons, forall_eq_or_imp, exists_eq_or_imp]
    obtain ⟨h1, h2, h3, h4, h5, h6⟩ := ih (extent_step (t, b) v).1 (extent_step (t, b) v).2
    have e : ((extent_step (t, b) v).1, (extent_step (t, b) v).2) = extent_step (t, b) v := rfl
    rw [e] at h1 h2 h3 h4 h5 h6
    have ht : t ≤ (extent_step (t, b) v).1 ∧ v.y ≤ (extent_step (t, b) v).1 ∧
        ((extent_step (t, b) v).1 = t ∨ (extent_step (t, b) v).1 = v.y) := by
      simp only [extent_step]
      split_ifs with hc
      · exact ⟨hc, le_refl _, Or.inr rfl⟩
      · exact ⟨le_refl _, le_of_lt (not_le.mp hc), Or.inl rfl⟩
    have hb : (extent_step (t, b) v).2 ≤ b ∧ (extent_step (t, b) v).2 ≤ v.y ∧
        ((extent_step (t, b) v).2 = b ∨ (extent_step (t, b) v).2 = v.y) := by
      simp only [extent_step]
      split_ifs with hc
      · exact ⟨hc, le_refl _, Or.inr rfl⟩
      · exact ⟨le_refl _, le_of_lt (not_le.mp hc), Or.inl rfl⟩
    refine ⟨⟨le_trans ht.2.1 h2, h1⟩, le_trans ht.1 h2, ?_, ⟨le_trans h5 hb.2.1, h4⟩,
      le_trans h5 hb.1, ?_⟩
    · rcases h3 with h3 | h3
      · rcases ht.2.2 with h | h
        · exact Or.inl (h3.trans h)
        · exact Or.inr (Or.inl (h3.trans h).symm)
      · exact Or.inr (Or.inr h3)
    · rcases h6 with h6 | h6
      · rcases hb.2.2 with h | h
        · exact Or.inl (h6.trans h)
        · exact Or.inr (Or.inl (h6.trans h).symm)
      · exact Or.inr (Or.inr h6)

theorem extent_fold_top (v0 : Vec3f) (rest : List Vec3f) (top : ℚ)
    (htop : IsGreatest {y | ∃ v ∈ v0 :: rest, v.y = y} top) :
    ((v0 :: rest).foldl extent_step (v0.y, v0.y)).1 = top := by
  obtain ⟨h1, h2, h3, -, -, -⟩ := extent_fold (v0 :: rest) v0.y v0.y
  apply le_antisymm
  · apply htop.2
    rcases h3 with h3 | h3
    · exact ⟨v0, List.mem_cons_self _ _, h3.symm⟩
    · exact h3
  · obtain ⟨v, hv, hvy⟩ := htop.1
    rw [← hvy]
    exact h1 v hv

theorem extent_fold_bottom (v0 : Vec3f) (rest : List Vec3f) (bottom : ℚ)
    (hbot : IsLeast {y | ∃ v ∈ v0 :: rest, v.y = y} bottom) :
    ((v0 :: rest).foldl extent_step (v0.y, v0.y)).2 = bottom := by
  obtain ⟨-, -, -, h4, h5, h6⟩ := extent_fold (v0 :: rest) v0.y v0.y
  apply le_antisymm
  · obtain ⟨v, hv, hvy⟩ := hbot.1
    rw [← hvy]
    exact h4 v hv
  · apply hbot.2
    rcases h6 with h6 | h6
    · exact ⟨v0, List.mem_cons_self _ _, h6.symm⟩
    · exact h6

theorem mem_band_scan (r s : ℚ) (vs : List Vec3f) : ∀ (i j : Nat),
    j ∈ band_scan r s vs i ↔
      ∃ k v, j = i + k ∧ vs[k]? = some v ∧ v.y < fl32 (r + s) ∧ v.y > fl32 (r - s) := by
  induction vs with
  | nil => intro i j; simp [band_scan]
  | cons u rest ih =>
    intro i j
    have key : (∃ k v, j = i + k ∧ (u :: rest)[k]? = some v ∧
          v.y < fl32 (r + s) ∧ v.y > fl32 (r - s)) ↔
        ((j = i ∧ u.y < fl32 (r + s) ∧ u.y > fl32 (r - s)) ∨
          ∃ k v, j = i + 1 + k ∧ rest[k]? = some v ∧
            v.y < fl32 (r + s) ∧ v.y > fl32 (r - s)) := by
      constructor
      · rintro ⟨k, v, hj, hk, hc⟩
        cases k with
        | zero =>
          simp only [List.getElem?_cons_zero, Option.some.injEq] at hk
          exact Or.inl ⟨by omega, hk ▸ hc⟩
        | succ k =>
          simp only [List.getElem?_cons_succ] at hk
          exact Or.inr ⟨k, v, by omega, hk, hc⟩
      · rintro (⟨hj, hc⟩ | ⟨k, v, hj, hk, hc⟩)
        · exact ⟨0, u, by omega, by simp, hc⟩
        · exact ⟨k + 1, v, by omega, by simpa using hk, hc⟩
    rw [key]
    simp only [band_scan]
    split_ifs with hc
    · simp only [List.mem_cons, ih]
      constructor
      · rintro (h | h)
        · exact Or.inl ⟨h, hc⟩
        · exact Or.inr h
      · rintro (h | h)
        · exact Or.inl h.1
        · exact Or.inr h
    · rw [ih]
      constructor
      · intro h; exact Or.inr h
      · rintro (h | h)
        · exact absurd h.2 hc
        · exact h

/-- Membership in the result of `get_top_vertices`, for a mesh whose greatest
height is `top` and least height is `bottom`: the height lies strictly between
the rounded band bounds. -/
theorem mem_get_top_vertices (is_pointed_up : Bool) (mesh : TriMesh) (top bottom : ℚ)
    (htop : IsGreatest {y | ∃ v ∈ mesh.vertices, v.y = y} top)
    (hbot : IsLeast {y | ∃ v ∈ mesh.vertices, v.y = y} bottom) (i : Nat) :
    i ∈ get_top_vertices is_pointed_up mesh ↔
      ∃ v, mesh.vertices[i]? = some v ∧
        v.y < fl32 ((if is_pointed_up then bottom else top) + band_spread top bottom) ∧
        v.y > fl32 ((if is_pointed_up then bottom else top) - band_spread top bottom) := by
  unfold get_top_vertices
  cases hvs : mesh.vertices with
  | nil =>
    obtain ⟨v, hv, _⟩ := htop.1
    rw [hvs] at hv
    simp at hv
  | cons v0 rest =>
    rw [hvs] at htop hbot
    simp only [extent_fold_top v0 rest top htop, extent_fold_bottom v0 rest bottom hbot,
      mem_band_scan]
    cases is_pointed_up <;> simp

theorem band_spread_nonneg (top bottom : ℚ) (h : bottom ≤ top) :
    0 ≤ band_spread top bottom := by
  unfold band_spread
  apply fl32_nonneg
  have := fl32_nonneg (top - bottom) (by linarith)
  positivity

theorem ladder_heights (y : ℚ) :
    (∃ v ∈ ladder_mesh.vertices, v.y = y) ↔
      y ∈ ([0, 1, 2, 3, 4, 5, 6, 7, 8, 9, 10] : List ℚ) := by
  simp [ladder_mesh, eq_comm]

theorem ladder_top : IsGreatest {y | ∃ v ∈ ladder_mesh.vertices, v.y = y} 10 := by
  constructor
  · exact (ladder_heights 10).mpr (by simp)
  · intro y hy
    have h := (ladder_heights y).mp hy
    simp only [List.mem_cons, List.mem_singleton, List.not_mem_nil, or_false] at h
    rcases h with h | h | h | h | h | h | h | h | h | h | h <;> rw [h] <;> norm_num

theorem ladder_bottom : IsLeast {y | ∃ v ∈ ladder_mesh.vertices, v.y = y} 0 := by
  constructor
  · exact (ladder_heights 0).mpr (by simp)
  · intro y hy
    have h := (ladder_heights y).mp hy
    simp only [List.mem_cons, List.mem_singleton, List.not_mem_nil, or_false] at h
    rcases h with h | h | h | h | h | h | h | h | h | h | h <;> rw [h] <;> norm_num

theorem ladder_floats : ∀ v ∈ ladder_mesh.vertices, fl32 v.y = v.y := by
  intro v hv
  apply fl32_small
  have h := (ladder_heights v.y).mp ⟨v, hv, rfl⟩
  simp only [List.mem_cons, List.mem_singleton, List.not_mem_nil, or_false] at h ⊢
  tauto

theorem band_spread_ten : band_spread 10 0 = 1 := by
  have h10 : fl32 10 = 10 := fl32_small 10 (by simp)
  have h1 : fl32 1 = 1 := fl32_small 1 (by simp)
  norm_num [band_spread, h10, h1]

theorem fl32_eleven : fl32 11 = 11 := fl32_small 11 (by simp)

theorem fl32_nine : fl32 9 = 9 := fl32_small 9 (by simp)

/-! ### The band-edge mesh -/

theorem fl32_tenth_f : fl32 (13421773 / 134217728) = 13421773 / 134217728 := by
  rw [fl32_eval (13421773 / 134217728) (-4) 13421773 (by norm_num) (by norm_num) (by norm_num)
    (by norm_num [abs_lt])]
  norm_num

theorem fl32_nine_hundredths_f : fl32 (3019899 / 33554432) = 3019899 / 33554432 := by
  rw [fl32_eval (3019899 / 33554432) (-4) 12079596 (by norm_num) (by norm_num) (by norm_num)
    (by norm_num [abs_lt])]
  norm_num

theorem band_edge_spread : band_spread (13421773 / 134217728) 0 = 5368709 / 536870912 := by
  have h2 : fl32 (13421773 / 1342177280) = 5368709 / 536870912 := by
    rw [fl32_eval (13421773 / 1342177280) (-7) 10737418 (by norm_num) (by norm_num)
      (by norm_num) (by norm_num [abs_lt])]
    norm_num
  norm_num [band_spread, fl32_tenth_f, h2]

theorem band_edge_upper :
    fl32 (13421773 / 134217728 + 5368709 / 536870912) = 7381975 / 67108864 := by
  rw [fl32_eval (13421773 / 134217728 + 5368709 / 536870912) (-4) 14763950 (by norm_num)
    (by norm_num) (by norm_num) (by norm_num [abs_lt])]
  norm_num

theorem band_edge_lower :
    fl32 (13421773 / 134217728 - 5368709 / 536870912) = 3019899 / 33554432 := by
  rw [fl32_eval (13421773 / 134217728 - 5368709 / 536870912) (-4) 12079596 (by norm_num)
    (by norm_num) (by norm_num) (by norm_num [abs_lt])]
  norm_num

theorem band_edge_heights (y : ℚ) :
    (∃ v ∈ band_edge_mesh.vertices, v.y = y) ↔
      y ∈ ([0, 3019899 / 33554432, 13421773 / 134217728] : List ℚ) := by
  simp [band_edge_mesh, eq_comm]

theorem band_edge_top :
    IsGreatest {y | ∃ v ∈ band_edge_mesh.vertices, v.y = y} (13421773 / 134217728) := by
  constructor
  · exact (band_edge_heights _).mpr (by simp)
  · intro y hy
    have h := (band_edge_heights y).mp hy
    simp only [List.mem_cons, List.mem_singleton, List.not_mem_nil, or_false] at h
    rcases h with h | h | h <;> rw [h] <;> norm_num

theorem band_edge_bottom : IsLeast {y | ∃ v ∈ band_edge_mesh.vertices, v.y = y} 0 := by
  constructor
  · exact (band_edge_heights 0).mpr (by simp)
  · intro y hy
    have h := (band_edge_heights y).mp hy
    simp only [List.mem_cons, List.mem_singleton, List.not_mem_nil, or_false] at h
    rcases h with h | h | h <;> rw [h] <;> norm_num

theorem get_top_vertices_band_edge : get_top_vertices false band_edge_mesh = [2] := by
  have hs := band_edge_spread
  have hu := band_edge_upper
  have hl := band_edge_lower
  norm_num at hu hl
  norm_num [get_top_vertices, band_edge_mesh, extent_step, band_scan, hs, hu, hl]

/-- C6, as stated, fails: on the mesh with binary32 heights `0`, `0.09f`, `0.1f`
and the pointed-up flag false, the top is `0.1f`, the bottom `0`, and the vertex
of height `0.09f` is strictly less than `(top - bottom)/10` away from the top,
whether the spread is taken exactly or rounded to binary32, yet it is not
returned: the result is `[2]`, because `0.1f - spread` rounds to
`0.09f` and the comparison is strict. -/
theorem get_top_vertices_band_edge_not_returned :
    IsGreatest {y | ∃ v ∈ band_edge_mesh.vertices, v.y = y} (13421773 / 134217728) ∧
    IsLeast {y | ∃ v ∈ band_edge_mesh.vertices, v.y = y} 0 ∧
    (∀ v ∈ band_edge_mesh.vertices, fl32 v.y = v.y) ∧
    band_edge_mesh.vertices[1]? = some ⟨0, 3019899 / 33554432, 0⟩ ∧
    |(3019899 / 33554432 : ℚ) - 13421773 / 134217728| < (13421773 / 134217728 - 0) / 10 ∧
    |(3019899 / 33554432 : ℚ) - 13421773 / 134217728| < band_spread (13421773 / 134217728) 0 ∧
    get_top_vertices false band_edge_mesh = [2] ∧
    1 ∉ get_top_vertices false band_edge_mesh := by
  refine ⟨band_edge_top, band_edge_bottom, ?_, rfl, by norm_num [abs_lt],
    by rw [band_edge_spread]; norm_num [abs_lt],
    get_top_vertices_band_edge, by rw [get_top_vertices_band_edge]; decide⟩
  intro v hv
  have h := (band_edge_heights v.y).mp ⟨v, hv, rfl⟩
  simp only [List.mem_cons, List.mem_singleton, List.not_mem_nil, or_false] at h
  rcases h with h | h | h <;> rw [h]
  · exact fl32_zero
  · exact fl32_nine_hundredths_f
  · exact fl32_tenth_f

/-- C6, amended: for every non-empty mesh of binary32 heights, with greatest
height `top` and least height `bottom`, with `spread` the binary32 value of
`(top - bottom)/10` (difference and quotient each rounded) and reference height
`bottom` when the pointed-up flag is set and `top` otherwise, `get_top_vertices`
returns exactly the indices of the vertices whose height lies strictly between
the binary32 values of `ref - spread` and `ref + spread`; every returned vertex
has its height strictly within `spread` of the reference height; and every
vertex whose height is strictly within `spread` of the reference height lies
between the two rounded bounds and is returned unless its height equals one of
them. -/
theorem get_top_vertices_band (is_pointed_up : Bool) (mesh : TriMesh) (top bottom : ℚ)
    (htop : IsGreatest {y | ∃ v ∈ mesh.vertices, v.y = y} top)
    (hbot : IsLeast {y | ∃ v ∈ mesh.vertices, v.y = y} bottom)
    (hfloat : ∀ v ∈ mesh.vertices, fl32 v.y = v.y) :
    (∀ i, i ∈ get_top_vertices is_pointed_up mesh ↔
      ∃ v, mesh.vertices[i]? = some v ∧
        fl32 ((if is_pointed_up then bottom else top) - band_spread top bottom) < v.y ∧
        v.y < fl32 ((if is_pointed_up then bottom else top) + band_spread top bottom)) ∧
    (∀ i ∈ get_top_vertices is_pointed_up mesh, ∃ v, mesh.vertices[i]? = some v ∧
        |v.y - (if is_pointed_up then bottom else top)| < band_spread top bottom) ∧
    (∀ i v, mesh.vertices[i]? = some v →
        |v.y - (if is_pointed_up then bottom else top)| < band_spread top bottom →
        fl32 ((if is_pointed_up then bottom else top) - band_spread top bottom) ≤ v.y ∧
        v.y ≤ fl32 ((if is_pointed_up then bottom else top) + band_spread top bottom) ∧
        (fl32 ((if is_pointed_up then bottom else top) - band_spread top bottom) ≠ v.y →
          v.y ≠ fl32 ((if is_pointed_up then bottom else top) + band_spread top bottom) →
          i ∈ get_top_vertices is_pointed_up mesh)) := by
  have hmem := mem_get_top_vertices is_pointed_up mesh top bottom htop hbot
  refine ⟨?_, ?_, ?_⟩
  · intro i
    rw [hmem i]
    constructor
    · rintro ⟨v, hv, h1, h2⟩
      exact ⟨v, hv, h2, h1⟩
    · rintro ⟨v, hv, h1, h2⟩
      exact ⟨v, hv, h2, h1⟩
  · intro i hi
    obtain ⟨v, hv, h1, h2⟩ := (hmem i).mp hi
    have hf := hfloat v (List.getElem?_mem hv)
    refine ⟨v, hv, ?_⟩
    rw [abs_lt]
    constructor
    · by_contra hc
      have hc2 : v.y ≤ (if is_pointed_up then bottom else top) - band_spread top bottom := by
        linarith [not_lt.mp hc]
      have hle := le_fl32 _ v.y hf hc2
      linarith
    · by_contra hc
      have hc2 : (if is_pointed_up then bottom else top) + band_spread top bottom ≤ v.y := by
        linarith [not_lt.mp hc]
      have hle := fl32_le _ v.y hf hc2
      linarith
  · intro i v hv hd
    have hf := hfloat v (List.getElem?_mem hv)
    rw [abs_lt] at hd
    have hlo := fl32_le ((if is_pointed_up then bottom else top) - band_spread top bottom)
      v.y hf (by linarith [hd.1])
    have hhi := le_fl32 ((if is_pointed_up then bottom else top) + band_spread top bottom)
      v.y hf (by linarith [hd.2])
    refine ⟨hlo, hhi, ?_⟩
    intro h1 h2
    exact (hmem i).mpr ⟨v, hv, lt_of_le_of_ne hhi h2, lt_of_le_of_ne hlo h1⟩

theorem get_top_vertices_band_witness :
    IsGreatest {y | ∃ v ∈ ladder_mesh.vertices, v.y = y} 10 ∧
    IsLeast {y | ∃ v ∈ ladder_mesh.vertices, v.y = y} 0 ∧
    (∀ v ∈ ladder_mesh.vertices, fl32 v.y = v.y) ∧
    ((∀ i, i ∈ get_top_vertices false ladder_mesh ↔
      ∃ v, ladder_mesh.vertices[i]? = some v ∧
        fl32 ((if false = true then (0 : ℚ) else 10) - band_spread 10 0) < v.y ∧
        v.y < fl32 ((if false = true then (0 : ℚ) else 10) + band_spread 10 0)) ∧
    (∀ i ∈ get_top_vertices false ladder_mesh, ∃ v, ladder_mesh.vertices[i]? = some v ∧
        |v.y - (if false = true then (0 : ℚ) else 10)| < band_spread 10 0) ∧
    (∀ i v, ladder_mesh.vertices[i]? = some v →
        |v.y - (if false = true then (0 : ℚ) else 10)| < band_spread 10 0 →
        fl32 ((if false = true then (0 : ℚ) else 10) - band_spread 10 0) ≤ v.y ∧
        v.y ≤ fl32 ((if false = true then (0 : ℚ) else 10) + band_spread 10 0) ∧
        (fl32 ((if false = true then (0 : ℚ) else 10) - band_spread 10 0) ≠ v.y →
          v.y ≠ fl32 ((if false = true then (0 : ℚ) else 10) + band_spread 10 0) →
          i ∈ get_top_vertices false ladder_mesh))) :=
  ⟨ladder_top, ladder_bottom, ladder_floats,
   get_top_vertices_band false ladder_mesh 10 0 ladder_top ladder_bottom ladder_floats⟩

theorem get_top_vertices_ladder : get_top_vertices false ladder_mesh = [10] := by
  have hs := band_spread_ten
  have h11 := fl32_eleven
  have h9 := fl32_nine
  norm_num [get_top_vertices, ladder_mesh, extent_step, band_scan, hs, h11, h9]

theorem get_top_vertices_sample : get_top_vertices false sample_mesh_reduced = [2] := by
  have h1 : fl32 1 = 1 := fl32_small 1 (by simp)
  have h2 : fl32 (1 / 10) = 13421773 / 134217728 := by
    rw [fl32_eval (1 / 10) (-4) 13421773 (by norm_num) (by norm_num) (by norm_num)
      (by norm_num [abs_lt])]
    norm_num
  have hs : band_spread 1 0 = 13421773 / 134217728 := by
    norm_num [band_spread, h1, h2]
  have hu : fl32 (1 + 13421773 / 134217728) = 9227469 / 8388608 := by
    rw [fl32_eval (1 + 13421773 / 134217728) 0 9227469 (by norm_num) (by norm_num)
      (by norm_num) (by norm_num [abs_lt])]
    norm_num
  have hl : fl32 (1 - 13421773 / 134217728) = 7549747 / 8388608 := by
    rw [fl32_eval (1 - 13421773 / 134217728) (-1) 15099494 (by norm_num) (by norm_num)
      (by norm_num) (by norm_num [abs_lt])]
    norm_num
  norm_num at hu hl
  norm_num [get_top_vertices, sample_mesh_reduced, extent_step, band_scan, hs, hu, hl]

/-- C5, as stated, fails: on the mesh with vertex `k` at height `k` for
`k = 0, ..., 10` and the pointed-up flag false, the returned indices are not
exactly those of the vertices with height in `[9, 10]`; the height-9 vertex is
left out. -/
theorem get_top_vertices_ladder_not_closed_band :
    ¬ (∀ i, i ∈ get_top_vertices false ladder_mesh ↔
        ∃ v, ladder_mesh.vertices[i]? = some v ∧ 9 ≤ v.y ∧ v.y ≤ 10) := by
  intro h
  have h9 : 9 ∈ get_top_vertices false ladder_mesh :=
    (h 9).mpr ⟨⟨0, 9, 0⟩, by simp [ladder_mesh], by norm_num, by norm_num⟩
  rw [get_top_vertices_ladder] at h9
  simp at h9

/-- C5, amended: for every mesh whose set of vertex heights is
`0, 1, ..., 10` and with the pointed-up flag false, `get_top_vertices` returns
exactly the indices of the vertices with height in the half-open band
`(9, 10]`, that is, of the vertices of height 10; a vertex of height 9 is not
returned. -/
theorem get_top_vertices_heights_zero_to_ten (mesh : TriMesh)
    (hs : ∀ y : ℚ, (∃ v ∈ mesh.vertices, v.y = y) ↔
      y ∈ ([0, 1, 2, 3, 4, 5, 6, 7, 8, 9, 10] : List ℚ)) :
    (∀ i, i ∈ get_top_vertices false mesh ↔
        ∃ v, mesh.vertices[i]? = some v ∧ 9 < v.y ∧ v.y ≤ 10) ∧
    (∀ i, i ∈ get_top_vertices false mesh ↔ ∃ v, mesh.vertices[i]? = some v ∧ v.y = 10) ∧
    (∀ i v, mesh.vertices[i]? = some v → v.y = 9 → i ∉ get_top_vertices false mesh) := by
  have hle : ∀ y : ℚ, (∃ v ∈ mesh.vertices, v.y = y) → 0 ≤ y ∧ y ≤ 10 ∧ (9 < y → y = 10) := by
    intro y hy
    have h := (hs y).mp hy
    simp only [List.mem_cons, List.mem_singleton, List.not_mem_nil, or_false] at h
    rcases h with h | h | h | h | h | h | h | h | h | h | h <;> rw [h] <;> norm_num
  have htop : IsGreatest {y | ∃ v ∈ mesh.vertices, v.y = y} 10 :=
    ⟨(hs 10).mpr (by simp), fun y hy => (hle y hy).2.1⟩
  have hbot : IsLeast {y | ∃ v ∈ mesh.vertices, v.y = y} 0 :=
    ⟨(hs 0).mpr (by simp), fun y hy => (hle y hy).1⟩
  have key : ∀ i, i ∈ get_top_vertices false mesh ↔
      ∃ v, mesh.vertices[i]? = some v ∧ v.y < 11 ∧ v.y > 9 := by
    intro i
    rw [mem_get_top_vertices false mesh 10 0 htop hbot i]
    norm_num [band_spread_ten, fl32_eleven, fl32_nine]
  have hmem : ∀ (i : Nat) (v : Vec3f), mesh.vertices[i]? = some v →
      ∃ u ∈ mesh.vertices, u.y = v.y := by
    intro i v hv
    exact ⟨v, List.getElem?_mem hv, rfl⟩
  refine ⟨?_, ?_, ?_⟩
  · intro i
    rw [key]
    constructor
    · rintro ⟨v, hv, _, h9⟩
      exact ⟨v, hv, h9, (hle v.y (hmem i v hv)).2.1⟩
    · rintro ⟨v, hv, h9, h10⟩
      exact ⟨v, hv, by linarith, h9⟩
  · intro i
    rw [key]
    constructor
    · rintro ⟨v, hv, _, h9⟩
      exact ⟨v, hv, (hle v.y (hmem i v hv)).2.2 h9⟩
    · rintro ⟨v, hv, h10⟩
      exact ⟨v, hv, by rw [h10]; norm_num, by rw [h10]; norm_num⟩
  · intro i v hv h9 hi
    obtain ⟨u, hu, _, hgt⟩ := (key i).mp hi
    rw [hv] at hu
    cases hu
    rw [h9] at hgt
    exact lt_irrefl _ hgt

theorem get_top_vertices_heights_zero_to_ten_witness :
    (∀ y : ℚ, (∃ v ∈ ladder_mesh.vertices, v.y = y) ↔
      y ∈ ([0, 1, 2, 3, 4, 5, 6, 7, 8, 9, 10] : List ℚ)) ∧
    ((∀ i, i ∈ get_top_vertices false ladder_mesh ↔
        ∃ v, ladder_mesh.vertices[i]? = some v ∧ 9 < v.y ∧ v.y ≤ 10) ∧
    (∀ i, i ∈ get_top_vertices false ladder_mesh ↔
        ∃ v, ladder_mesh.vertices[i]? = some v ∧ v.y = 10) ∧
    (∀ i v, ladder_mesh.vertices[i]? = some v → v.y = 9 →
        i ∉ get_top_vertices false ladder_mesh)) :=
  ⟨ladder_heights, get_top_vertices_heights_zero_to_ten ladder_mesh ladder_heights⟩

/-! ## Gravity gate -/

theorem gravity_loop_eq (g : ℚ) (l : List Solid) : ∀ i : Nat,
    gravity_loop g l i =
      (l.map (fun s => s.set_gravity g), (List.range l.length).map (fun k => (i + k, g))) := by
  induction l with
  | nil => intro i; rfl
  | cons s rest ih =>
    intro i
    simp only [gravity_loop, ih (i + 1), List.map_cons, List.length_cons, List.range_succ_eq_map,
      List.map_map, Prod.mk.injEq, List.cons.injEq, true_and, Nat.add_zero]
    apply List.map_congr_left
    intro k _
    simp only [Function.comp, Prod.mk.injEq, and_true]
    omega

theorem update_first (step : List Solid → List Solid) (st : FactoryState)
    (h : st.gravity_ ≠ st.last_gravity_) :
    (update step st).gravity_ = st.gravity_ ∧
    (update step st).last_gravity_ = st.gravity_ ∧
    (update step st).set_gravity_calls = st.set_gravity_calls ++
      (List.range st.solids.length).map (fun i => (i, st.gravity_)) ∧
    (update step st).solids = step (st.solids.map (fun s => s.set_gravity st.gravity_)) ∧
    (update step st).world_gravity = ⟨0, st.gravity_, 0⟩ ∧
    (update step st).info_gravity = ⟨0, st.gravity_, 0⟩ := by
  simp [update, h, update_object_gravity, gravity_loop_eq]

theorem update_settled (step : List Solid → List Solid) (st : FactoryState)
    (h : st.gravity_ = st.last_gravity_) :
    (update step st).gravity_ = st.gravity_ ∧
    (update step st).last_gravity_ = st.last_gravity_ ∧
    (update step st).set_gravity_calls = st.set_gravity_calls ∧
    (update step st).solids = step st.solids ∧
    (update step st).world_gravity = st.world_gravity ∧
    (update step st).info_gravity = st.info_gravity := by
  simp [update, h]

theorem update_iterate_settled (step : List Solid → List Solid) (n : Nat) :
    ∀ st : FactoryState, st.gravity_ = st.last_gravity_ →
      ((update step)^[n] st).set_gravity_calls = st.set_gravity_calls ∧
      ((update step)^[n] st).solids = step^[n] st.solids ∧
      ((update step)^[n] st).gravity_ = st.gravity_ ∧
      ((update step)^[n] st).last_gravity_ = st.last_gravity_ ∧
      ((update step)^[n] st).world_gravity = st.world_gravity := by
  induction n with
  | zero => intro st _; exact ⟨rfl, rfl, rfl, rfl, rfl⟩
  | succ n ih =>
    intro st h
    obtain ⟨h1, h2, h3, h4, h5, _⟩ := update_settled step st h
    obtain ⟨i1, i2, i3, i4, i5⟩ := ih (update step st) (by rw [h1, h2, h])
    simp only [Function.iterate_succ_apply]
    exact ⟨by rw [i1, h3], by rw [i2, h4], by rw [i3, h1], by rw [i4, h2], by rw [i5, h5]⟩

/-- C7 (gravity change-gate): when the stored gravity differs from the
last-applied value, `N ≥ 1` consecutive `update()` calls (nothing changing the
gravity in between) make on every registered solid exactly one `set_gravity`
call in total, not `N`, on the first of them: the calls recorded after `N`
updates are those recorded after the first update, one call per registered
solid, in registry order, with the new gravity value; and the registered solids
after `N` updates are the original ones with `set_gravity` applied once to each
and the physics step applied `N` times. -/
theorem update_gravity_gate (stepSimulation : List Solid → List Solid) (st : FactoryState)
    (N : Nat) (hN : 1 ≤ N) (hchg : st.gravity_ ≠ st.last_gravity_) :
    ((update stepSimulation)^[N] st).set_gravity_calls =
        st.set_gravity_calls ++ (List.range st.solids.length).map (fun i => (i, st.gravity_)) ∧
    ((update stepSimulation)^[N] st).set_gravity_calls =
        (update stepSimulation st).set_gravity_calls ∧
    (∀ i, i < st.solids.length →
      ((((update stepSimulation)^[N] st).set_gravity_calls.drop
        st.set_gravity_calls.length).map Prod.fst).count i = 1) ∧
    (update stepSimulation st).solids =
        stepSimulation (st.solids.map (fun s => s.set_gravity st.gravity_)) ∧
    ((update stepSimulation)^[N] st).solids =
        stepSimulation^[N] (st.solids.map (fun s => s.set_gravity st.gravity_)) ∧
    ((update stepSimulation)^[N] st).last_gravity_ = st.gravity_ ∧
    ((update stepSimulation)^[N] st).world_gravity = ⟨0, st.gravity_, 0⟩ := by
  obtain ⟨n, rfl⟩ : ∃ n, N = n + 1 := ⟨N - 1, by omega⟩
  obtain ⟨h1, h2, h3, h4, h5, _⟩ := update_first stepSimulation st hchg
  obtain ⟨i1, i2, _, i4, i5⟩ :=
    update_iterate_settled stepSimulation n (update stepSimulation st) (by rw [h1, h2])
  have hit : ((update stepSimulation)^[n + 1] st).set_gravity_calls =
      (update stepSimulation st).set_gravity_calls := by
    rw [Function.iterate_succ_apply]
    exact i1
  refine ⟨by rw [hit, h3], hit, ?_, h4, ?_, ?_, ?_⟩
  · intro i hi
    rw [hit, h3, List.drop_left, List.map_map]
    have : (Prod.fst ∘ fun i => (i, st.gravity_)) = (id : Nat → Nat) := rfl
    rw [this, List.map_id]
    exact List.count_eq_one_of_mem (List.nodup_range _) (List.mem_range.mpr hi)
  · rw [Function.iterate_succ_apply, i2, h4, Function.iterate_succ_apply]
  · rw [Function.iterate_succ_apply, i4, h2]
  · rw [Function.iterate_succ_apply, i5, h5]

theorem update_gravity_gate_witness :
    1 ≤ 3 ∧ sample_state.gravity_ ≠ sample_state.last_gravity_ ∧
    (((update id)^[3] sample_state).set_gravity_calls =
        sample_state.set_gravity_calls ++
          (List.range sample_state.solids.length).map (fun i => (i, sample_state.gravity_)) ∧
    ((update id)^[3] sample_state).set_gravity_calls =
        (update id sample_state).set_gravity_calls ∧
    (∀ i, i < sample_state.solids.length →
      ((((update id)^[3] sample_state).set_gravity_calls.drop
        sample_state.set_gravity_calls.length).map Prod.fst).count i = 1) ∧
    (update id sample_state).solids =
        id (sample_state.solids.map (fun s => s.set_gravity sample_state.gravity_)) ∧
    ((update id)^[3] sample_state).solids =
        id^[3] (sample_state.solids.map (fun s => s.set_gravity sample_state.gravity_)) ∧
    ((update id)^[3] sample_state).last_gravity_ = sample_state.gravity_ ∧
    ((update id)^[3] sample_state).world_gravity = ⟨0, sample_state.gravity_, 0⟩) :=
  ⟨by decide, by norm_num [sample_state],
   update_gravity_gate id sample_state 3 (by decide) (by norm_num [sample_state])⟩

/-! ## Ray-sphere selection -/

theorem detect_selection_eq (s : Solid) (ray : Ray) (item : SolidGraphicItem)
    (hitem : s.graphic_item = some item) :
    s.detect_selection ray = some (decide (ray_sphere_discriminant ray.origin ray.direction
      (s.body.bounding_center.add s.body.origin)
      (if item.has_alternate_bounding_sphere = true then item.bounding_sphere_radius
        else s.body.bounding_radius) > 0)) := by
  simp only [Solid.detect_selection, hitem, Option.some.injEq]
  congr 2
  simp only [ray_sphere_discriminant, Vec3f.sub, Vec3f.add, Vec3f.dot]
  ring

/-- C10 (ray-sphere selection): for a solid with a visual, with centre `c` the
engine's bounding-sphere centre moved by the body origin and radius `r` the
visual's alternate radius when it declares one and the engine's bounding radius
otherwise, `Solid::detect_selection` on the ray with origin `o` and direction
`d` returns true exactly when `((o-c)·d)^2 - ((o-c)·(o-c) - r^2) > 0`; when that
discriminant is `0` (tangent ray) it returns false. -/
theorem detect_selection_discriminant (s : Solid) (ray : Ray) (item : SolidGraphicItem)
    (c : Vec3f) (r : ℚ)
    (hitem : s.graphic_item = some item)
    (hc : c = ⟨s.body.bounding_center.x + s.body.origin.x,
      s.body.bounding_center.y + s.body.origin.y, s.body.bounding_center.z + s.body.origin.z⟩)
    (hr : r = if item.has_alternate_bounding_sphere = true then item.bounding_sphere_radius
      else s.body.bounding_radius) :
    ∃ b, s.detect_selection ray = some b ∧
      (b = true ↔ ray_sphere_discriminant ray.origin ray.direction c r > 0) ∧
      (ray_sphere_discriminant ray.origin ray.direction c r = 0 → b = false) := by
  have hc2 : c = s.body.bounding_center.add s.body.origin := hc
  subst hc2 hr
  refine ⟨_, detect_selection_eq s ray item hitem, by simp, ?_⟩
  intro h0
  rw [h0]
  simp

theorem detect_selection_discriminant_witness :
    sample_rigid.graphic_item = some ⟨true, 2⟩ ∧
    (∃ b, sample_rigid.detect_selection ⟨⟨0, 0, 0⟩, ⟨0, 1, 0⟩⟩ = some b ∧
      (b = true ↔ ray_sphere_discriminant ⟨0, 0, 0⟩ ⟨0, 1, 0⟩ ⟨0, 5, 0⟩ 2 > 0) ∧
      (ray_sphere_discriminant ⟨0, 0, 0⟩ ⟨0, 1, 0⟩ ⟨0, 5, 0⟩ 2 = 0 → b = false)) :=
  ⟨rfl, detect_selection_discriminant sample_rigid ⟨⟨0, 0, 0⟩, ⟨0, 1, 0⟩⟩ ⟨true, 2⟩ ⟨0, 5, 0⟩ 2
    rfl (by norm_num [sample_rigid]) (by simp)⟩

/-! ## Spring lattice -/

theorem sum_range_step (c m : Nat) (n : Nat) :
    ((List.range n).map (fun k => c + m * (if 0 < k then 1 else 0))).sum =
      n * c + m * (n - 1) := by
  induction n with
  | zero => simp
  | succ n ih =>
    rw [List.range_succ, List.map_append, List.sum_append, ih]
    cases n with
    | zero => simp
    | succ n =>
      simp only [List.map_cons, List.map_nil, List.sum_cons, List.sum_nil, Nat.succ_pos,
        if_true, Nat.add_sub_cancel]
      ring

theorem spring_links_at_length (position radius : Vec3f) (i j k : Nat) :
    (spring_links_at position radius i j k).length =
      (if 0 < i then 1 else 0) + (if 0 < j then 1 else 0) + (if 0 < k then 1 else 0) := by
  unfold spring_links_at
  split_ifs <;> simp

theorem spring_link_loop_length (position radius : Vec3f) (w h d : Nat) :
    (spring_link_loop position radius w h d).length =
      (w - 1) * h * d + w * (h - 1) * d + w * h * (d - 1) := by
  unfold spring_link_loop
  have inner : ∀ i j, ((List.range d).flatMap fun k => spring_links_at position radius i j k).length
      = (d * (if 0 < i then 1 else 0) + (d - 1)) + d * (if 0 < j then 1 else 0) := by
    intro i j
    rw [List.length_flatMap]
    simp only [Function.comp_def]
    have : (List.range d).map (fun k => (spring_links_at position radius i j k).length) =
        (List.range d).map (fun k => ((if 0 < i then 1 else 0) + (if 0 < j then 1 else 0)) +
          1 * (if 0 < k then 1 else 0)) := by
      apply List.map_congr_left
      intro k _
      rw [spring_links_at_length]
      ring
    rw [this, sum_range_step]
    ring
  have middle : ∀ i, ((List.range h).flatMap fun j => (List.range d).flatMap fun k =>
      spring_links_at position radius i j k).length =
      (h * (d - 1) + d * (h - 1)) + (h * d) * (if 0 < i then 1 else 0) := by
    intro i
    rw [List.length_flatMap]
    simp only [Function.comp_def]
    have : (List.range h).map (fun j => ((List.range d).flatMap fun k =>
        spring_links_at position radius i j k).length) =
        (List.range h).map (fun j => (d * (if 0 < i then 1 else 0) + (d - 1)) +
          d * (if 0 < j then 1 else 0)) := by
      apply List.map_congr_left
      intro j _
      exact inner i j
    rw [this, sum_range_step]
    ring
  rw [List.length_flatMap]
  simp only [Function.comp_def]
  have : (List.range w).map (fun i => ((List.range h).flatMap fun j => (List.range d).flatMap fun k =>
      spring_links_at position radius i j k).length) =
      (List.range w).map (fun i => (h * (d - 1) + d * (h - 1)) +
        (h * d) * (if 0 < i then 1 else 0)) := by
    apply List.map_congr_left
    intro i _
    exact middle i
  rw [this, sum_range_step]
  ring

/-- C8, as stated, fails: for the size `(0, 1, 1)` the function creates no
spring link, while `(w-1)*h*d + w*(h-1)*d + w*h*(d-1)` is `-1`. -/
theorem spring_matrix_zero_width_count :
    create_rigid_sphere_spring_matrix ⟨0, 0, 0⟩ ⟨1, 1, 1⟩ 0 1 1 = some ⟨[], []⟩ ∧
      ((([] : List SpringLinkCall).length : Int) ≠
        ((0 : Int) - 1) * 1 * 1 + 0 * ((1 : Int) - 1) * 1 + 0 * 1 * ((1 : Int) - 1)) := by
  constructor
  · simp [create_rigid_sphere_spring_matrix, lattice_resize_ok, rigid_lattice_bodies,
      spring_link_loop]
  · norm_num

/-- C8, amended: for all `w, h, d ≥ 0` the function returns; when `w, h, d ≥ 1`
it makes exactly `(w-1)*h*d + w*(h-1)*d + w*h*(d-1)` calls of
`spring_link_rigid_spheres`, and when one of `w, h, d` is `0` it makes none. -/
theorem spring_matrix_link_count (position radius : Vec3f) (w h d : Int)
    (hw : 0 ≤ w) (hh : 0 ≤ h) (hd : 0 ≤ d) :
    ∃ r, create_rigid_sphere_spring_matrix position radius w h d = some r ∧
      (1 ≤ w → 1 ≤ h → 1 ≤ d →
        (r.links.length : Int) = (w - 1) * h * d + w * (h - 1) * d + w * h * (d - 1)) ∧
      (w = 0 ∨ h = 0 ∨ d = 0 → r.links = []) := by
  obtain ⟨W, rfl⟩ := Int.eq_ofNat_of_zero_le hw
  obtain ⟨H, rfl⟩ := Int.eq_ofNat_of_zero_le hh
  obtain ⟨D, rfl⟩ := Int.eq_ofNat_of_zero_le hd
  have hok : lattice_resize_ok (W : Int) (H : Int) (D : Int) = true := by
    simp [lattice_resize_ok]
  refine ⟨⟨rigid_lattice_bodies position radius W H D, spring_link_loop position radius W H D⟩,
    by simp [create_rigid_sphere_spring_matrix, hok], ?_, ?_⟩
  · intro h1 h2 h3
    simp only [spring_link_loop_length]
    have h1 : 1 ≤ W := by exact_mod_cast h1
    have h2 : 1 ≤ H := by exact_mod_cast h2
    have h3 : 1 ≤ D := by exact_mod_cast h3
    push_cast [Nat.cast_sub h1, Nat.cast_sub h2, Nat.cast_sub h3]
    ring
  · intro hz
    apply List.length_eq_zero.mp
    simp only [spring_link_loop_length]
    rcases hz with hz | hz | hz
    · have : W = 0 := by exact_mod_cast hz
      subst this; simp
    · have : H = 0 := by exact_mod_cast hz
      subst this; simp
    · have : D = 0 := by exact_mod_cast hz
      subst this; simp

theorem spring_matrix_link_count_witness :
    (0 : Int) ≤ 2 ∧ (0 : Int) ≤ 1 ∧ (0 : Int) ≤ 2 ∧
    ∃ r, create_rigid_sphere_spring_matrix ⟨0, 100, 0⟩ ⟨1, 1, 1⟩ 2 1 2 = some r ∧
      ((1 : Int) ≤ 2 → (1 : Int) ≤ 1 → (1 : Int) ≤ 2 →
        (r.links.length : Int) =
          ((2 : Int) - 1) * 1 * 2 + 2 * ((1 : Int) - 1) * 2 + 2 * 1 * ((2 : Int) - 1)) ∧
      ((2 : Int) = 0 ∨ (1 : Int) = 0 ∨ (2 : Int) = 0 → r.links = []) :=
  ⟨by decide, by decide, by decide,
   spring_matrix_link_count ⟨0, 100, 0⟩ ⟨1, 1, 1⟩ 2 1 2 (by decide) (by decide) (by decide)⟩

/-- The size `(2, 1, 2)` of the adjacency example gets exactly four links. -/
theorem spring_matrix_two_one_two (position radius : Vec3f) :
    (spring_link_loop position radius 2 1 2).length = 4 := by
  rw [spring_link_loop_length]

/-! ## Node masses -/

theorem setMass_fold (m : ℚ) (is : List Nat) : ∀ nodes : List ℚ,
    is.foldlM (fun ns i => setMass ns i m) nodes =
      if ∀ i ∈ is, i < nodes.length then some (is.foldl (fun ns i => ns.set i m) nodes)
      else none := by
  induction is with
  | nil => intro nodes; simp
  | cons i rest ih =>
    intro nodes
    simp only [List.foldlM_cons, List.foldl_cons, List.mem_cons, forall_eq_or_imp]
    by_cases hi : i < nodes.length
    · have hs : setMass nodes i m = some (nodes.set i m) := by simp [setMass, hi]
      rw [hs]
      simp only [Option.bind_eq_bind, Option.some_bind]
      rw [ih]
      simp [hi]
    · have hs : setMass nodes i m = none := by simp [setMass, hi]
      rw [hs]
      simp [hi]

theorem set_fold_length (m : ℚ) (is : List Nat) : ∀ nodes : List ℚ,
    (is.foldl (fun ns i => ns.set i m) nodes).length = nodes.length := by
  induction is with
  | nil => intro nodes; rfl
  | cons i rest ih => intro nodes; simp [ih]

theorem set_fold_get (m : ℚ) (is : List Nat) : ∀ (nodes : List ℚ) (j : Nat),
    j < nodes.length →
    (is.foldl (fun ns i => ns.set i m) nodes)[j]? =
      if j ∈ is then some m else nodes[j]? := by
  induction is with
  | nil => intro nodes j _; simp
  | cons i rest ih =>
    intro nodes j hj
    simp only [List.foldl_cons, List.mem_cons]
    rw [ih (nodes.set i m) j (by simpa using hj)]
    by_cases hjr : j ∈ rest
    · simp [hjr]
    · by_cases hji : j = i
      · subst hji
        simp [hjr, hj]
      · have : i ≠ j := fun e => hji e.symm
        simp [hjr, hji, List.getElem?_set_ne this]

theorem uniform_mass_loop_eq (nodes : List ℚ) :
    ∃ out, uniform_mass_loop nodes = some out ∧ out.length = nodes.length ∧
      ∀ j, j < nodes.length → out[j]? = some 1 := by
  refine ⟨(List.range nodes.length).foldl (fun ns i => ns.set i 1) nodes, ?_,
    set_fold_length _ _ _, ?_⟩
  · rw [uniform_mass_loop, setMass_fold, if_pos]
    intro i hi
    exact List.mem_range.mp hi
  · intro j hj
    rw [set_fold_get 1 _ nodes j hj, if_pos (List.mem_range.mpr hj)]

/-- C9 (anchoring overrides the uniform mass): for a triangle mesh and an
engine body that has a node for every anchor index, `create_soft_mesh` returns
a body whose nodes are those the engine made; with `lock_base_vertices` true
every node whose index is in `get_top_vertices` of the deduplicated mesh has
mass 0 and every other node has mass 1, and with `lock_base_vertices` false
every node has mass 1. -/
theorem create_soft_mesh_masses (CreateFromTriMesh : TriMesh → List ℚ) (is_pointed_up : Bool)
    (in_mesh : TriMesh) (lock_base_vertices : Bool) (hwf : in_mesh.WellFormed)
    (hnodes : lock_base_vertices = true → ∀ mesh, remove_mesh_duplicates in_mesh = some mesh →
      ∀ a ∈ get_top_vertices is_pointed_up mesh, a < (CreateFromTriMesh mesh).length) :
    ∃ mesh nodes, remove_mesh_duplicates in_mesh = some mesh ∧
      create_soft_mesh CreateFromTriMesh is_pointed_up in_mesh lock_base_vertices = some nodes ∧
      nodes.length = (CreateFromTriMesh mesh).length ∧
      ∀ i, i < nodes.length →
        nodes[i]? = some (if lock_base_vertices = true ∧
          i ∈ get_top_vertices is_pointed_up mesh then 0 else 1) := by
  have hd := remove_mesh_duplicates_of_wf in_mesh hwf
  obtain ⟨n1, hu, hlen, hone⟩ := uniform_mass_loop_eq (CreateFromTriMesh (dedup_result in_mesh))
  cases lock_base_vertices with
  | false =>
    refine ⟨dedup_result in_mesh, n1, hd, by simp [create_soft_mesh, hd, hu], hlen, ?_⟩
    intro i hi
    simpa using hone i (hlen ▸ hi)
  | true =>
    have hin : ∀ a ∈ get_top_vertices is_pointed_up (dedup_result in_mesh), a < n1.length := by
      intro a ha
      rw [hlen]
      exact hnodes rfl _ hd a ha
    refine ⟨dedup_result in_mesh,
      (get_top_vertices is_pointed_up (dedup_result in_mesh)).foldl (fun ns i => ns.set i 0) n1,
      hd, ?_, ?_, ?_⟩
    · simp only [create_soft_mesh, hd, hu, if_true, anchor_mass_loop, setMass_fold]
      rw [if_pos hin]
    · rw [set_fold_length, hlen]
    · intro i hi
      rw [set_fold_length] at hi
      rw [set_fold_get 0 _ n1 i hi]
      by_cases hm : i ∈ get_top_vertices is_pointed_up (dedup_result in_mesh)
      · simp [hm]
      · simp [hm, hone i (hlen ▸ hi)]

theorem sample_anchor_bound : true = true → ∀ mesh,
    remove_mesh_duplicates sample_mesh = some mesh →
      ∀ a ∈ get_top_vertices false mesh, a < (sample_engine mesh).length := by
  intro _ mesh hm a ha
  have hr : remove_mesh_duplicates sample_mesh = some sample_mesh_reduced := by decide
  rw [hr] at hm
  cases hm
  have hg : get_top_vertices false sample_mesh_reduced = [2] := get_top_vertices_sample
  rw [hg] at ha
  simp only [List.mem_singleton] at ha
  subst ha
  simp [sample_engine, sample_mesh_reduced]

/-- The node masses `create_soft_mesh` leaves on the sample mesh with the base
locked: the two vertices of height 0 keep mass 1, the top vertex is pinned. -/
theorem create_soft_mesh_sample :
    create_soft_mesh sample_engine false sample_mesh true = some [1, 1, 0] := by
  have hr : remove_mesh_duplicates sample_mesh = some sample_mesh_reduced := by decide
  have hg : get_top_vertices false sample_mesh_reduced = [2] := get_top_vertices_sample
  have hu : uniform_mass_loop (sample_engine sample_mesh_reduced) = some [1, 1, 1] := by
    simp [uniform_mass_loop, sample_engine, setMass, sample_mesh_reduced, List.range_succ]
  simp [create_soft_mesh, hr, hu, hg, anchor_mass_loop, setMass]

theorem create_soft_mesh_masses_witness :
    sample_mesh.WellFormed ∧
    (∃ mesh nodes, remove_mesh_duplicates sample_mesh = some mesh ∧
      create_soft_mesh sample_engine false sample_mesh true = some nodes ∧
      nodes.length = (sample_engine mesh).length ∧
      ∀ i, i < nodes.length →
        nodes[i]? = some (if true = true ∧ i ∈ get_top_vertices false mesh then 0 else 1)) :=
  ⟨by decide,
   create_soft_mesh_masses sample_engine false sample_mesh true (by decide) sample_anchor_bound⟩

/-! ## Selection and force -/

/-- C11 (selection gating): while the selection-enabled flag is false,
`set_selected(true)` and `select()` on a deformable solid leave the solid as it
was and issue no attach or detach request; so a solid that is not selected
stays not selected. -/
theorem soft_select_gated (allow_forces : Bool) (s : Solid) :
    SoftSolid.set_selected false allow_forces s true = (s, []) ∧
    SoftSolid.select false allow_forces s = (s, []) ∧
    (s.selected = false →
      (SoftSolid.set_selected false allow_forces s true).1.selected = false ∧
      (SoftSolid.select false allow_forces s).1.selected = false) := by
  refine ⟨rfl, rfl, ?_⟩
  intro h
  exact ⟨h, h⟩

theorem soft_select_gated_witness :
    sample_soft.selected = false ∧
    (SoftSolid.set_selected false true sample_soft true).1.selected = false ∧
    (SoftSolid.select false true sample_soft).1.selected = false :=
  ⟨rfl, (soft_select_gated true sample_soft).2.2 rfl⟩

/-- C12 (select is a toggle): `Solid::select`, which a rigid solid uses, negates
`selected()`, and so does `SoftSolid::select` while selection is enabled; two
consecutive calls give back the original value. -/
theorem select_toggles (allow_forces : Bool) (s : Solid) :
    (Solid.select s).selected = !s.selected ∧
    (Solid.select (Solid.select s)).selected = s.selected ∧
    (SoftSolid.select true allow_forces s).1.selected = !s.selected ∧
    (SoftSolid.select true allow_forces (SoftSolid.select true allow_forces s).1).1.selected =
      s.selected := by
  have h1 : ∀ t : Solid, (SoftSolid.select true allow_forces t).1.selected = !t.selected := by
    intro t
    simp only [SoftSolid.select, Solid.select]
    cases t.selected <;> cases allow_forces <;> rfl
  refine ⟨rfl, by simp [Solid.select], h1 s, ?_⟩
  rw [h1, h1]
  simp

/-- C13 (sustained force): `set_force(v)` sets `has_force` and stores `v`; an
`update()` made while `has_force` is true sets the body velocity to the stored
force, so every update after `set_force(v)` gives velocity `v`, whatever the
engine did to the velocity in between; an `update()` made while `has_force` is
false changes nothing. -/
theorem soft_force_sustained (s : Solid) (v : Vec3f) :
    (SoftSolid.set_force s v).has_force = true ∧
    (SoftSolid.set_force s v).force = v ∧
    (∀ t : Solid, t.has_force = true → (SoftSolid.update t).body.velocity = t.force) ∧
    (∀ t : Solid, t.has_force = true → (SoftSolid.update t).has_force = true ∧
      (SoftSolid.update t).force = t.force) ∧
    (SoftSolid.update (SoftSolid.set_force s v)).body.velocity = v ∧
    (∀ t : Solid, t.has_force = false → SoftSolid.update t = t) := by
  refine ⟨rfl, rfl, ?_, ?_, rfl, ?_⟩
  · intro t ht
    simp [SoftSolid.update, ht]
  · intro t ht
    simp [SoftSolid.update, ht]
  · intro t ht
    simp [SoftSolid.update, ht]

theorem soft_force_sustained_witness :
    (SoftSolid.set_force sample_soft ⟨1, 2, 3⟩).has_force = true ∧
    (SoftSolid.update (SoftSolid.set_force sample_soft ⟨1, 2, 3⟩)).body.velocity =
      (SoftSolid.set_force sample_soft ⟨1, 2, 3⟩).force ∧
    sample_soft.has_force = false ∧
    SoftSolid.update sample_soft = sample_soft :=
  ⟨rfl,
   (soft_force_sustained sample_soft ⟨1, 2, 3⟩).2.2.1 (SoftSolid.set_force sample_soft ⟨1, 2, 3⟩) rfl,
   rfl,
   (soft_force_sustained sample_soft ⟨1, 2, 3⟩).2.2.2.2.2 sample_soft rfl⟩

/-- C14 (gravity asymmetry): `RigidSolid::set_gravity(g)` sets the body gravity
to `(0, g, 0)` and activates the body; `SoftSolid::set_gravity(g)` activates the
body and changes no other field of the body or of the solid, for every `g`. -/
theorem set_gravity_asymmetry (s : Solid) (g : ℚ) :
    (RigidSolid.set_gravity s g).body.gravity = ⟨0, g, 0⟩ ∧
    (RigidSolid.set_gravity s g).body.active = true ∧
    (SoftSolid.set_gravity s g).body.active = true ∧
    (SoftSolid.set_gravity s g).body.gravity = s.body.gravity ∧
    (SoftSolid.set_gravity s g).body.velocity = s.body.velocity ∧
    (SoftSolid.set_gravity s g).body.origin = s.body.origin ∧
    (SoftSolid.set_gravity s g).body.bounding_center = s.body.bounding_center ∧
    (SoftSolid.set_gravity s g).body.bounding_radius = s.body.bounding_radius ∧
    (SoftSolid.set_gravity s g).kind = s.kind ∧
    (SoftSolid.set_gravity s g).graphic_item = s.graphic_item ∧
    (SoftSolid.set_gravity s g).selected = s.selected ∧
    (SoftSolid.set_gravity s g).has_force = s.has_force ∧
    (SoftSolid.set_gravity s g).visible = s.visible ∧
    (SoftSolid.set_gravity s g).force = s.force ∧
    (s.body.active = true → SoftSolid.set_gravity s g = s) := by
  refine ⟨rfl, rfl, rfl, rfl, rfl, rfl, rfl, rfl, rfl, rfl, rfl, rfl, rfl, rfl, ?_⟩
  intro h
  cases s with
  | mk kind gi body sel hf vis force =>
    cases body with
    | mk bc br o gr act vel =>
      simp only at h
      subst h
      rfl

theorem set_gravity_asymmetry_witness :
    (SoftSolid.set_gravity sample_soft 5).body.active = true ∧
    SoftSolid.set_gravity (SoftSolid.set_gravity sample_soft 5) 7 =
      SoftSolid.set_gravity sample_soft 5 :=
  ⟨rfl,
   (set_gravity_asymmetry (SoftSolid.set_gravity sample_soft 5) 7).2.2.2.2.2.2.2.2.2.2.2.2.2.2 rfl⟩

/-! ## Spring constraints and linked spheres -/

/-- The six degrees of freedom as `spring_link_rigid_spheres` leaves them,
for every pair of centres: the spring is enabled and the damping set on each,
the stiffness is set (to 20) on the first only. -/
theorem spring_link_dofs (p1 p2 : Vec3f) :
    (spring_link_rigid_spheres p1 p2).dofs =
      [⟨true, some 20, some (1 / 10)⟩, ⟨true, none, some (1 / 10)⟩,
       ⟨true, none, some (1 / 10)⟩, ⟨true, none, some (1 / 10)⟩,
       ⟨true, none, some (1 / 10)⟩, ⟨true, none, some (1 / 10)⟩] := by
  simp [spring_link_rigid_spheres, spring_dof_step, SpringConstraint.enableSpring,
    SpringConstraint.setStiffness, SpringConstraint.setDamping, modify_dof, List.range_succ,
    List.replicate]

/-- C15, on the code: the constraint built for the centres `(0,0,0)` and
`(1,0,0)` has the spring enabled and a damping set on each of its six degrees
of freedom, but a stiffness set on the first only, none on the degrees of
freedom 1 to 5: every iteration of the loop calls `setStiffness(0, 20.f)`. -/
theorem spring_link_stiffness_first_only :
    (spring_link_rigid_spheres ⟨0, 0, 0⟩ ⟨1, 0, 0⟩).dofs.map (fun d => d.enabled) =
      [true, true, true, true, true, true] ∧
    (spring_link_rigid_spheres ⟨0, 0, 0⟩ ⟨1, 0, 0⟩).dofs.map (fun d => d.damping) =
      [some (1 / 10), some (1 / 10), some (1 / 10), some (1 / 10), some (1 / 10),
        some (1 / 10)] ∧
    (spring_link_rigid_spheres ⟨0, 0, 0⟩ ⟨1, 0, 0⟩).dofs.map (fun d => d.stiffness) =
      [some 20, none, none, none, none, none] := by
  rw [spring_link_dofs]
  exact ⟨rfl, rfl, rfl⟩

/-- C16 (spring limits): for every pair of centres the constraint built by
`spring_link_rigid_spheres` has linear upper limit `(p2 - p1)/2`, linear lower
limit `-(p2 - p1)/2`, and angular limits `(0, 0, -1.5)` and `(0, 0, 1.5)`
whatever the centres. -/
theorem spring_link_limits (p1 p2 : Vec3f) :
    (spring_link_rigid_spheres p1 p2).linear_upper =
      some ⟨(p2.x - p1.x) / 2, (p2.y - p1.y) / 2, (p2.z - p1.z) / 2⟩ ∧
    (spring_link_rigid_spheres p1 p2).linear_lower =
      some ⟨-((p2.x - p1.x) / 2), -((p2.y - p1.y) / 2), -((p2.z - p1.z) / 2)⟩ ∧
    (spring_link_rigid_spheres p1 p2).angular_lower = some ⟨0, 0, -(3 / 2)⟩ ∧
    (spring_link_rigid_spheres p1 p2).angular_upper = some ⟨0, 0, 3 / 2⟩ := by
  refine ⟨rfl, ?_, rfl, rfl⟩
  have h : (spring_link_rigid_spheres p1 p2).linear_lower = some ((p2.sub p1).div (-2)) := rfl
  rw [h]
  simp only [Vec3f.div, Vec3f.sub, div_neg]

/-- C17 (linked soft spheres): `create_linked_soft_spheres(pos, radius)` returns
exactly two deformable bodies, centred at `pos + off` and `pos - off` for the
vertical offset `off = (0, 1.1 * radius.x, 0)`, and makes exactly one socket
joint, between these two bodies, placed at the midpoint of the two centres,
which is `pos`. -/
theorem linked_soft_spheres (position radius : Vec3f) :
    ∃ sb1 sb2 j, (create_linked_soft_spheres position radius).solids = [sb1, sb2] ∧
      sb1.center = ⟨position.x + 0, position.y + 11 / 10 * radius.x, position.z + 0⟩ ∧
      sb2.center = ⟨position.x - 0, position.y - 11 / 10 * radius.x, position.z - 0⟩ ∧
      (create_linked_soft_spheres position radius).joints = [j] ∧
      j.s1 = sb1 ∧ j.s2 = sb2 ∧
      j.position = ⟨(sb1.center.x + sb2.center.x) / 2, (sb1.center.y + sb2.center.y) / 2,
        (sb1.center.z + sb2.center.z) / 2⟩ ∧
      j.position = position := by
  refine ⟨_, _, _, rfl, ?_, ?_, rfl, rfl, rfl, rfl, ?_⟩
  · simp only [create_bullet_soft_sphere, Vec3f.add, mul_comm]
  · simp only [create_bullet_soft_sphere, Vec3f.sub, mul_comm]
  · cases position with
    | mk x y z =>
      simp only [socket_link_soft_spheres, Vec3f.add, Vec3f.sub, Vec3f.div, Vec3f.mk.injEq]
      refine ⟨by ring, by ring, by ring⟩

/-! ## Lattice geometry -/

theorem flatMap_range_length {α : Type} (g : Nat → List α) (n : Nat)
    (hg : ∀ i, (g i).length = n) (w : Nat) :
    ((List.range w).flatMap g).length = w * n := by
  induction w with
  | zero => simp
  | succ w ih =>
    rw [List.range_succ, List.flatMap_append, List.length_append, ih]
    simp [hg, Nat.succ_mul]

theorem flatMap_range_getElem {α : Type} (g : Nat → List α) (n : Nat)
    (hg : ∀ i, (g i).length = n) (w i m : Nat) (hi : i < w) (hm : m < n) :
    ((List.range w).flatMap g)[i * n + m]? = (g i)[m]? := by
  induction w with
  | zero => omega
  | succ w ih =>
    rw [List.range_succ, List.flatMap_append]
    have hlen := flatMap_range_length g n hg w
    by_cases hiw : i < w
    · have hlt : i * n + m < ((List.range w).flatMap g).length := by
        rw [hlen]
        calc i * n + m < i * n + n := by omega
          _ = (i + 1) * n := by ring
          _ ≤ w * n := Nat.mul_le_mul_right n hiw
      rw [List.getElem?_append_left hlt]
      exact ih hiw
    · have hiw2 : i = w := by omega
      subst hiw2
      have hge : ((List.range i).flatMap g).length ≤ i * n + m := by rw [hlen]; omega
      rw [List.getElem?_append_right hge, hlen]
      simp

theorem lattice_getElem {α : Type} (f : Nat → Nat → Nat → α) (w h d i j k : Nat)
    (hi : i < w) (hj : j < h) (hk : k < d) :
    ((List.range w).flatMap fun i => (List.range h).flatMap fun j =>
      (List.range d).map fun k => f i j k)[(i * h + j) * d + k]? = some (f i j k) := by
  have hin : ∀ i j, ((List.range d).map fun k => f i j k).length = d := by
    intro i j; simp
  have hmid : ∀ i, ((List.range h).flatMap fun j => (List.range d).map fun k => f i j k).length
      = h * d := by
    intro i
    exact flatMap_range_length _ d (hin i) h
  have e : (i * h + j) * d + k = i * (h * d) + (j * d + k) := by ring
  have hjk : j * d + k < h * d := by
    calc j * d + k < j * d + d := by omega
      _ = (j + 1) * d := by ring
      _ ≤ h * d := Nat.mul_le_mul_right d hj
  rw [e, flatMap_range_getElem _ (h * d) hmid w i _ hi hjk,
    flatMap_range_getElem _ d (hin i) h j k hj hk]
  simp [hk]

theorem lattice_length {α : Type} (f : Nat → Nat → Nat → α) (w h d : Nat) :
    ((List.range w).flatMap fun i => (List.range h).flatMap fun j =>
      (List.range d).map fun k => f i j k).length = w * h * d := by
  have hin : ∀ i j, ((List.range d).map fun k => f i j k).length = d := by
    intro i j; simp
  have hmid : ∀ i, ((List.range h).flatMap fun j => (List.range d).map fun k => f i j k).length
      = h * d := by
    intro i
    exact flatMap_range_length _ d (hin i) h
  rw [flatMap_range_length _ (h * d) hmid w]
  ring

theorem soft_cell_position_eq (is_pointed_up : Bool) (position radius : Vec3f) (i j k : Nat) :
    soft_cell_position is_pointed_up position radius i j k =
      lattice_point position radius.x (4 / 10 * radius.x) (if is_pointed_up then -1 else 1)
        i j k := by
  cases is_pointed_up <;>
    simp only [soft_cell_position, lattice_point, Vec3f.add, Vec3f.scale, Vec3f.mk.injEq,
      if_true, if_false, Bool.false_eq_true] <;>
    refine ⟨by ring, by ring, by ring⟩

theorem rigid_cell_position_eq (position radius : Vec3f) (i j k : Nat) :
    rigid_cell_position position radius i j k =
      lattice_point position radius.x (3 / 10 * radius.x) 1 i j k := by
  simp only [rigid_cell_position, lattice_point, Vec3f.add, Vec3f.scale, Vec3f.mk.injEq]
  refine ⟨by ring, by ring, by ring⟩

/-- C18 (deformable lattice geometry): for all `w, h, d ≥ 0`,
`create_soft_sphere_matrix` returns exactly `w*h*d` solids, ordered with `i`
outermost and `k` innermost (cell `(i, j, k)` stands at place `(i*h + j)*d + k`),
and the body of cell `(i, j, k)` is centred at `pos + (2r + gap) * (i, s*j, k)`
with `r = radius.x`, `gap = 0.4 r`, and `s = -1` when the mesh-orientation flag
is pointed up and `+1` otherwise. -/
theorem soft_sphere_matrix_geometry (is_pointed_up : Bool) (position radius : Vec3f)
    (w h d : Int) (hw : 0 ≤ w) (hh : 0 ≤ h) (hd : 0 ≤ d) :
    ∃ r, create_soft_sphere_matrix is_pointed_up position radius w h d = some r ∧
      (r.solids.length : Int) = w * h * d ∧
      ∀ i j k : Nat, (i : Int) < w → (j : Int) < h → (k : Int) < d →
        ∃ b, r.solids[(i * h.toNat + j) * d.toNat + k]? = some b ∧
          b.center = lattice_point position radius.x (4 / 10 * radius.x)
            (if is_pointed_up then -1 else 1) i j k := by
  obtain ⟨W, rfl⟩ := Int.eq_ofNat_of_zero_le hw
  obtain ⟨H, rfl⟩ := Int.eq_ofNat_of_zero_le hh
  obtain ⟨D, rfl⟩ := Int.eq_ofNat_of_zero_le hd
  have hok : lattice_resize_ok (W : Int) (H : Int) (D : Int) = true := by
    simp [lattice_resize_ok]
  refine ⟨⟨soft_lattice_bodies is_pointed_up position radius W H D, []⟩,
    by simp [create_soft_sphere_matrix, hok], ?_, ?_⟩
  · simp only [soft_lattice_bodies, lattice_length]
    push_cast
    ring
  · intro i j k hi hj hk
    have hi : i < W := by exact_mod_cast hi
    have hj : j < H := by exact_mod_cast hj
    have hk : k < D := by exact_mod_cast hk
    refine ⟨create_bullet_soft_sphere (soft_cell_position is_pointed_up position radius i j k)
      radius 50, ?_, ?_⟩
    · simp only [Int.toNat_ofNat, soft_lattice_bodies]
      exact lattice_getElem _ W H D i j k hi hj hk
    · exact soft_cell_position_eq is_pointed_up position radius i j k

theorem soft_sphere_matrix_geometry_witness :
    (0 : Int) ≤ 2 ∧ (0 : Int) ≤ 2 ∧ (0 : Int) ≤ 1 ∧
    ∃ r, create_soft_sphere_matrix true ⟨0, 0, 0⟩ ⟨1, 1, 1⟩ 2 2 1 = some r ∧
      (r.solids.length : Int) = 2 * 2 * 1 ∧
      ∀ i j k : Nat, (i : Int) < 2 → (j : Int) < 2 → (k : Int) < 1 →
        ∃ b, r.solids[(i * (2 : Int).toNat + j) * (1 : Int).toNat + k]? = some b ∧
          b.center = lattice_point ⟨0, 0, 0⟩ (1 : ℚ) (4 / 10 * (1 : ℚ))
            (if true = true then -1 else 1) i j k :=
  ⟨by decide, by decide, by decide,
   soft_sphere_matrix_geometry true ⟨0, 0, 0⟩ ⟨1, 1, 1⟩ 2 2 1 (by decide) (by decide) (by decide)⟩

/-- C19, as stated, fails: with the mesh-orientation flag pointed up, the
rigid lattice of size `(1, 2, 1)` at the origin with radius 1 has its cell
`(0, 1, 0)` centred at height `+2.3`, not at the flipped height `-2.3`. -/
theorem rigid_sphere_matrix_not_flipped :
    ∃ bodies b, create_rigid_sphere_matrix true ⟨0, 0, 0⟩ ⟨1, 1, 1⟩ 1 2 1 = some bodies ∧
      bodies[(0 * 2 + 1) * 1 + 0]? = some b ∧
      b.position = ⟨0, 23 / 10, 0⟩ ∧
      b.position ≠ lattice_point ⟨0, 0, 0⟩ 1 (3 / 10 * 1) (-1) 0 1 0 := by
  refine ⟨rigid_lattice_bodies ⟨0, 0, 0⟩ ⟨1, 1, 1⟩ 1 2 1,
    ⟨rigid_cell_position ⟨0, 0, 0⟩ ⟨1, 1, 1⟩ 0 1 0, 1⟩, ?_, ?_, ?_, ?_⟩
  · simp [create_rigid_sphere_matrix, lattice_resize_ok]
  · simp [rigid_lattice_bodies, List.range_succ]
  · simp only [rigid_cell_position_eq, lattice_point, Vec3f.mk.injEq]
    norm_num
  · simp only [rigid_cell_position_eq, lattice_point, Vec3f.mk.injEq, ne_eq]
    norm_num

/-- C19, amended: for all `w, h, d ≥ 0`, in `create_rigid_sphere_matrix` the
body of cell `(i, j, k)` is centred at `pos + (2r + gap) * (i, j, k)` with
`r = radius.x` and `gap = 0.3 r`, whatever the mesh-orientation flag: the
vertical step is never flipped. -/
theorem rigid_sphere_matrix_geometry (is_pointed_up : Bool) (position radius : Vec3f)
    (w h d : Int) (hw : 0 ≤ w) (hh : 0 ≤ h) (hd : 0 ≤ d) :
    ∃ bodies, create_rigid_sphere_matrix is_pointed_up position radius w h d = some bodies ∧
      ∀ i j k : Nat, (i : Int) < w → (j : Int) < h → (k : Int) < d →
        ∃ b, bodies[(i * h.toNat + j) * d.toNat + k]? = some b ∧
          b.position = lattice_point position radius.x (3 / 10 * radius.x) 1 i j k := by
  obtain ⟨W, rfl⟩ := Int.eq_ofNat_of_zero_le hw
  obtain ⟨H, rfl⟩ := Int.eq_ofNat_of_zero_le hh
  obtain ⟨D, rfl⟩ := Int.eq_ofNat_of_zero_le hd
  have hok : lattice_resize_ok (W : Int) (H : Int) (D : Int) = true := by
    simp [lattice_resize_ok]
  refine ⟨rigid_lattice_bodies position radius W H D,
    by simp [create_rigid_sphere_matrix, hok], ?_⟩
  intro i j k hi hj hk
  have hi : i < W := by exact_mod_cast hi
  have hj : j < H := by exact_mod_cast hj
  have hk : k < D := by exact_mod_cast hk
  refine ⟨⟨rigid_cell_position position radius i j k, radius.x⟩, ?_, ?_⟩
  · simp only [Int.toNat_ofNat, rigid_lattice_bodies]
    exact lattice_getElem _ W H D i j k hi hj hk
  · exact rigid_cell_position_eq position radius i j k

theorem rigid_sphere_matrix_geometry_witness :
    (0 : Int) ≤ 1 ∧ (0 : Int) ≤ 2 ∧ (0 : Int) ≤ 1 ∧
    ∃ bodies, create_rigid_sphere_matrix true ⟨0, 0, 0⟩ ⟨1, 1, 1⟩ 1 2 1 = some bodies ∧
      ∀ i j k : Nat, (i : Int) < 1 → (j : Int) < 2 → (k : Int) < 1 →
        ∃ b, bodies[(i * (2 : Int).toNat + j) * (1 : Int).toNat + k]? = some b ∧
          b.position = lattice_point ⟨0, 0, 0⟩ (1 : ℚ) (3 / 10 * (1 : ℚ)) 1 i j k :=
  ⟨by decide, by decide, by decide,
   rigid_sphere_matrix_geometry true ⟨0, 0, 0⟩ ⟨1, 1, 1⟩ 1 2 1 (by decide) (by decide)
     (by decide)⟩

/-- C20 (no auto-linking): for every `w, h, d`, whenever
`create_soft_sphere_matrix` returns it has made no joint between its bodies
(no call of `socket_link_soft_spheres`), and for `w, h, d ≥ 0` it does
return. -/
theorem soft_sphere_matrix_no_joints (is_pointed_up : Bool) (position radius : Vec3f)
    (w h d : Int) :
    (∀ r, create_soft_sphere_matrix is_pointed_up position radius w h d = some r →
      r.joints = []) ∧
    (0 ≤ w → 0 ≤ h → 0 ≤ d →
      ∃ r, create_soft_sphere_matrix is_pointed_up position radius w h d = some r ∧
        r.joints = []) := by
  constructor
  · intro r hr
    unfold create_soft_sphere_matrix at hr
    split at hr
    · cases hr
      rfl
    · exact Option.noConfusion hr
  · intro hw hh hd
    obtain ⟨r, hr, _⟩ := soft_sphere_matrix_geometry is_pointed_up position radius w h d hw hh hd
    refine ⟨r, hr, ?_⟩
    unfold create_soft_sphere_matrix at hr
    split at hr
    · cases hr
      rfl
    · exact Option.noConfusion hr

theorem soft_sphere_matrix_no_joints_witness :
    (0 : Int) ≤ 2 ∧ (0 : Int) ≤ 1 ∧ (0 : Int) ≤ 2 ∧
    ∃ r, create_soft_sphere_matrix false ⟨0, 0, 0⟩ ⟨1, 1, 1⟩ 2 1 2 = some r ∧ r.joints = [] :=
  ⟨by decide, by decide, by decide,
   (soft_sphere_matrix_no_joints false ⟨0, 0, 0⟩ ⟨1, 1, 1⟩ 2 1 2).2 (by decide) (by decide)
     (by decide)⟩

/-! ## Destruction order -/

/-- C21, as stated, fails: when a rigid solid with a motion state and a
collision shape is destroyed, the removal of the body from the world is the
third effect, after the release of the motion state and of the shape. -/
theorem rigid_destroy_removal_not_first :
    RigidSolid.destroy true true sample_rigid =
      [DestroyEffect.delete_motion_state, DestroyEffect.delete_collision_shape,
       DestroyEffect.remove_rigid_body, DestroyEffect.delete_graphic_item,
       DestroyEffect.delete_body] ∧
    ¬ ((RigidSolid.destroy true true sample_rigid).indexOf DestroyEffect.remove_rigid_body <
        (RigidSolid.destroy true true sample_rigid).indexOf DestroyEffect.delete_motion_state ∧
      (RigidSolid.destroy true true sample_rigid).indexOf DestroyEffect.remove_rigid_body <
        (RigidSolid.destroy true true sample_rigid).indexOf
          DestroyEffect.delete_collision_shape) := by
  decide

/-- C21, amended: when a rigid solid is destroyed, the release of its motion
state and then of its collision shape (each when present) come first, the
removal of the body from the physics world comes after them, and the release of
the visual (when present) and of the body come after the removal. -/
theorem rigid_destroy_order (has_motion_state has_collision_shape : Bool) (s : Solid) :
    ∃ pre post,
      RigidSolid.destroy has_motion_state has_collision_shape s =
        pre ++ [DestroyEffect.remove_rigid_body] ++ post ∧
      pre = (if has_motion_state then [DestroyEffect.delete_motion_state] else []) ++
        (if has_collision_shape then [DestroyEffect.delete_collision_shape] else []) ∧
      post = (if s.graphic_item.isSome then [DestroyEffect.delete_graphic_item] else []) ++
        [DestroyEffect.delete_body] ∧
      DestroyEffect.remove_rigid_body ∉ pre ∧ DestroyEffect.remove_rigid_body ∉ post := by
  refine ⟨_, _, rfl, rfl, rfl, ?_, ?_⟩
  · cases has_motion_state <;> cases has_collision_shape <;> decide
  · unfold Solid.destroy
    cases s.graphic_item <;> simp

/-! ## Panel requests, force and selection -/

/-- C22, as stated, fails: with selection enabled and forces not allowed,
`select()` moves an unselected deformable solid to selected and issues no
attach request. -/
theorem soft_select_enter_without_attach :
    sample_soft.selected = false ∧
    (SoftSolid.select true false sample_soft).1.selected = true ∧
    (SoftSolid.select true false sample_soft).2 = [] := by
  refine ⟨rfl, rfl, rfl⟩

/-- C22, amended: a `select()` or `set_selected(true)` call that moves a
deformable solid from not selected to selected issues exactly one attach
request when the allow-forces flag is set and no request when it is not; a
`select()` or `set_selected(true)` call that moves it from selected to not
selected issues exactly one detach request. -/
theorem soft_menu_requests (allow_selection allow_forces : Bool) (s : Solid) :
    (s.selected = false → (SoftSolid.select allow_selection allow_forces s).1.selected = true →
      (SoftSolid.select allow_selection allow_forces s).2 =
        if allow_forces then [MenuRequest.add_menu] else []) ∧
    (s.selected = false →
      (SoftSolid.set_selected allow_selection allow_forces s true).1.selected = true →
      (SoftSolid.set_selected allow_selection allow_forces s true).2 =
        if allow_forces then [MenuRequest.add_menu] else []) ∧
    (s.selected = true → (SoftSolid.select allow_selection allow_forces s).1.selected = false →
      (SoftSolid.select allow_selection allow_forces s).2 = [MenuRequest.remove_menu]) ∧
    (s.selected = true →
      (SoftSolid.set_selected allow_selection allow_forces s true).1.selected = false →
      (SoftSolid.set_selected allow_selection allow_forces s true).2 =
        [MenuRequest.remove_menu]) := by
  have hset : SoftSolid.set_selected allow_selection allow_forces s true =
      SoftSolid.select allow_selection allow_forces s := rfl
  rw [hset]
  have key : ∀ b : Bool, s.selected = b →
      (SoftSolid.select allow_selection allow_forces s).1.selected = !b →
      (SoftSolid.select allow_selection allow_forces s).2 =
        if b then [MenuRequest.remove_menu]
        else if allow_forces then [MenuRequest.add_menu] else [] := by
    intro b hb
    cases allow_selection <;> cases allow_forces <;> cases b <;>
      simp [SoftSolid.select, Solid.select, hb]
  refine ⟨?_, ?_, ?_, ?_⟩
  · intro h1 h2; simpa using key false h1 (by simpa using h2)
  · intro h1 h2; simpa using key false h1 (by simpa using h2)
  · intro h1 h2; simpa using key true h1 (by simpa using h2)
  · intro h1 h2; simpa using key true h1 (by simpa using h2)

theorem soft_menu_requests_witness :
    sample_soft.selected = false ∧
    (SoftSolid.select true true sample_soft).1.selected = true ∧
    (SoftSolid.select true true sample_soft).2 =
      (if true = true then [MenuRequest.add_menu] else []) ∧
    (SoftSolid.select true true sample_soft).1.selected = true ∧
    (SoftSolid.select true true (SoftSolid.select true true sample_soft).1).1.selected = false ∧
    (SoftSolid.select true true (SoftSolid.select true true sample_soft).1).2 =
      [MenuRequest.remove_menu] :=
  ⟨rfl, rfl, (soft_menu_requests true true sample_soft).1 rfl rfl, rfl, rfl,
   (soft_menu_requests true true (SoftSolid.select true true sample_soft).1).2.2.1 rfl rfl⟩

/-- C28, on the code: with selection enabled, `set_selected(true)` on a
deformable solid that is already selected calls `select()`, which toggles: the
solid ends not selected (and a detach request is issued). -/
theorem soft_set_selected_true_deselects :
    (Solid.set_selected sample_soft true).selected = true ∧
    (SoftSolid.set_selected true true (Solid.set_selected sample_soft true) true).1.selected
      = false ∧
    (SoftSolid.set_selected true true (Solid.set_selected sample_soft true) true).2 =
      [MenuRequest.remove_menu] := by
  refine ⟨rfl, rfl, rfl⟩

/-- C23, as stated, fails: after `select()`, `set_force((1,2,3))`, `select()`
with selection and forces allowed, the deformable solid is not selected, yet
`update()` changes the body velocity from `(0,0,0)` to the stored force. -/
theorem soft_force_applied_when_deselected :
    (SoftOp.run true true sample_soft
      [SoftOp.select, SoftOp.set_force ⟨1, 2, 3⟩, SoftOp.select]).selected = false ∧
    (SoftOp.run true true sample_soft
      [SoftOp.select, SoftOp.set_force ⟨1, 2, 3⟩, SoftOp.select]).body.velocity = ⟨0, 0, 0⟩ ∧
    (SoftSolid.update (SoftOp.run true true sample_soft
      [SoftOp.select, SoftOp.set_force ⟨1, 2, 3⟩, SoftOp.select])).body.velocity = ⟨1, 2, 3⟩ ∧
    (⟨1, 2, 3⟩ : Vec3f) ≠ ⟨0, 0, 0⟩ := by
  refine ⟨rfl, rfl, rfl, by decide⟩

theorem soft_apply_keeps_force (allow_selection allow_forces : Bool) (s : Solid) (op : SoftOp)
    (h : s.has_force = true) :
    (SoftOp.apply allow_selection allow_forces s op).has_force = true := by
  cases op with
  | select =>
    simp only [SoftOp.apply, SoftSolid.select, Solid.select]
    cases allow_selection <;> cases allow_forces <;> cases s.selected <;> simp [h]
  | set_selected b =>
    simp only [SoftOp.apply, SoftSolid.set_selected, SoftSolid.select, Solid.select,
      Solid.set_selected]
    cases b <;> cases allow_selection <;> cases allow_forces <;> cases s.selected <;> simp [h]
  | set_force vel => rfl
  | update => simp [SoftOp.apply, SoftSolid.update, h]

theorem soft_run_keeps_force (allow_selection allow_forces : Bool) (ops : List SoftOp) :
    ∀ s : Solid, s.has_force = true →
      (SoftOp.run allow_selection allow_forces s ops).has_force = true := by
  induction ops with
  | nil => intro s h; exact h
  | cons op rest ih =>
    intro s h
    exact ih _ (soft_apply_keeps_force allow_selection allow_forces s op h)

/-- C23, amended: on a deformable solid an `update()` call changes the body
velocity only if `has_force` is set; `has_force`, once set by `set_force`, is
cleared by none of `select`, `set_selected`, `set_force`, `update`, so in every
state reached after a `set_force` call `update()` sets the velocity to the
stored force, whether or not the solid is selected. -/
theorem soft_force_independent_of_selection (allow_selection allow_forces : Bool) (s : Solid) :
    ((SoftSolid.update s).body.velocity ≠ s.body.velocity → s.has_force = true) ∧
    (∀ vel ops, (SoftOp.run allow_selection allow_forces (SoftSolid.set_force s vel)
      ops).has_force = true) ∧
    (∀ vel ops, (SoftSolid.update (SoftOp.run allow_selection allow_forces
      (SoftSolid.set_force s vel) ops)).body.velocity =
        (SoftOp.run allow_selection allow_forces (SoftSolid.set_force s vel) ops).force) := by
  refine ⟨?_, ?_, ?_⟩
  · intro h
    by_contra hf
    have hf2 : s.has_force = false := by simpa using hf
    exact h (by simp [SoftSolid.update, hf2])
  · intro vel ops
    exact soft_run_keeps_force allow_selection allow_forces ops _ rfl
  · intro vel ops
    have h := soft_run_keeps_force allow_selection allow_forces ops (SoftSolid.set_force s vel) rfl
    simp [SoftSolid.update, h]

theorem soft_force_independent_of_selection_witness :
    (SoftSolid.update (SoftSolid.set_force sample_soft ⟨1, 2, 3⟩)).body.velocity ≠
      (SoftSolid.set_force sample_soft ⟨1, 2, 3⟩).body.velocity ∧
    (SoftSolid.set_force sample_soft ⟨1, 2, 3⟩).has_force = true :=
  ⟨by decide,
   (soft_force_independent_of_selection true true
      (SoftSolid.set_force sample_soft ⟨1, 2, 3⟩)).1 (by decide)⟩

/-! ## Lookup fallback and well-indexed output -/

theorem find_indice_scan_mem (val : Vec3f) (l : List Vec3f) :
    ∀ i, val ∈ l → find_indice_scan val l i = some (i + l.indexOf val) := by
  induction l with
  | nil => intro i h; simp at h
  | cons v rest ih =>
    intro i h
    by_cases hv : v = val
    · simp [find_indice_scan, hv]
    · have hm : val ∈ rest := by
        rcases List.mem_cons.mp h with h | h
        · exact absurd h.symm hv
        · exact h
      simp only [find_indice_scan, hv, if_false, ih (i + 1) hm, List.indexOf_cons_ne _ hv]
      congr 1
      omega

theorem find_indice_scan_not_mem (val : Vec3f) (l : List Vec3f) :
    ∀ i, val ∉ l → find_indice_scan val l i = none := by
  induction l with
  | nil => intro i _; rfl
  | cons v rest ih =>
    intro i h
    have hv : v ≠ val := fun e => h (e ▸ List.mem_cons_self _ _)
    have hm : val ∉ rest := fun e => h (List.mem_cons_of_mem _ e)
    simp [find_indice_scan, hv, ih (i + 1) hm]

theorem find_indice_from_eq_scan (val : Vec3f) (l : List Vec3f) :
    ∀ i, find_indice_from val l i = (find_indice_scan val l i).getD 0 := by
  induction l with
  | nil => intro i; rfl
  | cons v rest ih =>
    intro i
    by_cases hv : v = val
    · simp [find_indice_from, find_indice_scan, hv]
    · simp [find_indice_from, find_indice_scan, hv, ih (i + 1)]

theorem before_indexOf (val : Vec3f) (l : List Vec3f) :
    ∀ j, j < l.indexOf val → l[j]? ≠ some val := by
  induction l with
  | nil => intro j h; simp at h
  | cons v rest ih =>
    intro j h
    by_cases hv : v = val
    · rw [hv, List.indexOf_cons_self] at h
      omega
    · rw [List.indexOf_cons_ne _ hv] at h
      cases j with
      | zero => simpa using hv
      | succ j =>
        simp only [List.getElem?_cons_succ]
        exact ih j (by omega)

/-- C24 (lookup fallback): for every reduced vertex list and every value,
`find_indice` returns the position of the first vertex equal to the value when
there is one, and `0` when there is none (the loop runs off the end); being a
total function it never fails, and `remove_mesh_duplicates` returns a mesh for
every triangle mesh with valid indices. -/
theorem find_indice_fallback (vec : List Vec3f) (val : Vec3f) (m : TriMesh) :
    (val ∈ vec → vec[find_indice vec val]? = some val ∧
      (∀ j, j < find_indice vec val → vec[j]? ≠ some val) ∧
      find_indice_scan val vec 0 = some (find_indice vec val)) ∧
    (val ∉ vec → find_indice vec val = 0 ∧ find_indice_scan val vec 0 = none) ∧
    (m.WellFormed → ∃ out, remove_mesh_duplicates m = some out) := by
  refine ⟨?_, ?_, ?_⟩
  · intro h
    refine ⟨find_indice_get vec val h, ?_, ?_⟩
    · intro j hj
      rw [find_indice_mem vec val h] at hj
      exact before_indexOf val vec j hj
    · rw [find_indice_mem vec val h, find_indice_scan_mem val vec 0 h]
      simp
  · intro h
    exact ⟨find_indice_from_not_mem val vec 0 h, find_indice_scan_not_mem val vec 0 h⟩
  · intro h
    exact ⟨_, remove_mesh_duplicates_of_wf m h⟩

theorem find_indice_fallback_witness :
    ((⟨0, 1, 0⟩ : Vec3f) ∈ sample_mesh_reduced.vertices ∧
      (⟨5, 5, 5⟩ : Vec3f) ∉ sample_mesh_reduced.vertices ∧ sample_mesh.WellFormed) ∧
    (sample_mesh_reduced.vertices[find_indice sample_mesh_reduced.vertices ⟨0, 1, 0⟩]? =
        some ⟨0, 1, 0⟩ ∧
      (∀ j, j < find_indice sample_mesh_reduced.vertices ⟨0, 1, 0⟩ →
        sample_mesh_reduced.vertices[j]? ≠ some ⟨0, 1, 0⟩) ∧
      find_indice_scan ⟨0, 1, 0⟩ sample_mesh_reduced.vertices 0 =
        some (find_indice sample_mesh_reduced.vertices ⟨0, 1, 0⟩)) ∧
    (find_indice sample_mesh_reduced.vertices ⟨5, 5, 5⟩ = 0 ∧
      find_indice_scan ⟨5, 5, 5⟩ sample_mesh_reduced.vertices 0 = none) ∧
    (∃ out, remove_mesh_duplicates sample_mesh = some out) :=
  ⟨⟨by decide, by decide, by decide⟩,
   (find_indice_fallback sample_mesh_reduced.vertices ⟨0, 1, 0⟩ sample_mesh).1 (by decide),
   (find_indice_fallback sample_mesh_reduced.vertices ⟨5, 5, 5⟩ sample_mesh).2.1 (by decide),
   (find_indice_fallback sample_mesh_reduced.vertices ⟨5, 5, 5⟩ sample_mesh).2.2 (by decide)⟩

/-- C25 (empty mesh): for a mesh with no vertices `get_top_vertices` returns the
empty index list, whatever the pointed-up flag (and whatever the index list). -/
theorem get_top_vertices_empty (is_pointed_up : Bool) (indices : List Nat) :
    get_top_vertices is_pointed_up ⟨[], indices⟩ = [] := by
  rfl

/-- C27 (well-indexed output): for every triangle mesh (index count a multiple
of three, indices below the vertex count) `remove_mesh_duplicates` returns a
mesh whose every triangle index is below its vertex count, and every lookup it
makes, of the vertex at an input index in the reduced list, returns from inside
the loop: the fallback `return 0` is never reached. -/
theorem remove_mesh_duplicates_well_indexed (m : TriMesh) (h : m.WellFormed) :
    ∃ out, remove_mesh_duplicates m = some out ∧
      out.vertices = (reduce_loop m.vertices).1 ∧
      (∀ j ∈ out.indices, j < out.vertices.length) ∧
      out.WellFormed ∧
      ∀ i ∈ m.indices, ∃ v k, m.vertices[i]? = some v ∧
        find_indice_scan v (reduce_loop m.vertices).1 0 = some k ∧
        find_indice (reduce_loop m.vertices).1 v = k := by
  refine ⟨dedup_result m, remove_mesh_duplicates_of_wf m h, ?_, (dedup_result_wf m h).2,
    dedup_result_wf m h, ?_⟩
  · rw [reduce_loop_eq]
    rfl
  · intro i hi
    have hlt := h.2 i hi
    have hm : m.vertices[i] ∈ keep_first m.vertices :=
      (mem_keep_first _ _).mpr (List.getElem_mem hlt)
    refine ⟨m.vertices[i], 0 + (keep_first m.vertices).indexOf m.vertices[i],
      List.getElem?_eq_getElem hlt, ?_, ?_⟩
    · rw [reduce_loop_eq]
      exact find_indice_scan_mem _ _ 0 hm
    · rw [reduce_loop_eq]
      simp [find_indice_mem _ _ hm]

theorem remove_mesh_duplicates_well_indexed_witness :
    sample_mesh.WellFormed ∧
    ∃ out, remove_mesh_duplicates sample_mesh = some out ∧
      out.vertices = (reduce_loop sample_mesh.vertices).1 ∧
      (∀ j ∈ out.indices, j < out.vertices.length) ∧
      out.WellFormed ∧
      ∀ i ∈ sample_mesh.indices, ∃ v k, sample_mesh.vertices[i]? = some v ∧
        find_indice_scan v (reduce_loop sample_mesh.vertices).1 0 = some k ∧
        find_indice (reduce_loop sample_mesh.vertices).1 v = k :=
  ⟨by decide, remove_mesh_duplicates_well_indexed sample_mesh (by decide)⟩

/-! ## Joint cells -/

theorem joint_cell_triangles :
    (List.range 6).foldl joint_cell_step (some []) =
      some (List.replicate 6 [default, default, default]) := by
  decide

/-- C26, as stated, fails: a joint cell built from the empty joint list stores
six triangles of three vertices each, eighteen vertices in total, not twelve. -/
theorem joint_cell_vertex_total :
    ∃ cell, JointCell.new [] = some cell ∧
      (cell.triangles.map List.length).sum = 18 ∧
      (cell.triangles.map List.length).sum ≠ 12 := by
  have h : JointCell.new [] = some
      { joints := [], color := (9 / 10, 9 / 10, 9 / 10, 1),
        triangles := List.replicate 6 [default, default, default],
        normals := vector_resize [] 6 } := by
    simp only [JointCell.new, joint_cell_triangles]
  exact ⟨_, h, by decide, by decide⟩

/-- C26, amended: after construction from any joint list, a joint cell stores
the joints, six triangles of three vertices each (eighteen vertices in total)
and six face normals. -/
theorem joint_cell_shape (joints : List Joint) :
    ∃ cell, JointCell.new joints = some cell ∧
      cell.joints = joints ∧
      cell.triangles.length = 6 ∧
      (∀ t ∈ cell.triangles, t.length = 3) ∧
      (cell.triangles.map List.length).sum = 18 ∧
      cell.normals.length = 6 := by
  have h : JointCell.new joints = some
      { joints := joints, color := (9 / 10, 9 / 10, 9 / 10, 1),
        triangles := List.replicate 6 [default, default, default],
        normals := vector_resize [] 6 } := by
    simp only [JointCell.new, joint_cell_triangles]
  refine ⟨_, h, rfl, rfl, ?_, rfl, rfl⟩
  intro t ht
  rw [List.eq_of_mem_replicate ht]
  rfl

/-! ## Picking ignores the sense of the ray -/

theorem discriminant_neg (o d c : Vec3f) (r : ℚ) :
    ray_sphere_discriminant o ⟨-d.x, -d.y, -d.z⟩ c r = ray_sphere_discriminant o d c r := by
  simp only [ray_sphere_discriminant]
  ring

theorem discriminant_line_point (o d c : Vec3f) (r t : ℚ) :
    ray_sphere_discriminant o d c r =
      (r ^ 2 - ((o.x + t * d.x - c.x) ^ 2 + (o.y + t * d.y - c.y) ^ 2 +
        (o.z + t * d.z - c.z) ^ 2)) +
      ((o.x - c.x) * d.x + (o.y - c.y) * d.y + (o.z - c.z) * d.z + t) ^ 2 +
      t ^ 2 * ((d.x ^ 2 + d.y ^ 2 + d.z ^ 2) - 1) := by
  simp only [ray_sphere_discriminant]
  ring

/-- C29, as stated, fails: for the direction `(0, 1/10, 0)`, which is not a
unit vector, the ray from `(0, 8, 0)` has the sphere of `sample_rigid` (centre
`(0, 5, 0)`, radius 2) entirely behind its origin (every point `p` of the
sphere has `(p - o)·d < 0`) and its supporting line passes through the centre
of the sphere (the point `o + (-30) d`), yet `Solid::detect_selection` returns
false. -/
theorem detect_selection_misses_behind :
    sample_rigid.graphic_item = some ⟨true, 2⟩ ∧
    ((⟨0, 8, 0⟩ : Vec3f).add ((⟨0, 1 / 10, 0⟩ : Vec3f).scale (-30)) =
      sample_rigid.body.bounding_center.add sample_rigid.body.origin) ∧
    (∀ p : Vec3f, (p.x - 0) ^ 2 + (p.y - 5) ^ 2 + (p.z - 0) ^ 2 ≤ (2 : ℚ) ^ 2 →
      (p.sub ⟨0, 8, 0⟩).dot ⟨0, 1 / 10, 0⟩ < 0) ∧
    sample_rigid.detect_selection ⟨⟨0, 8, 0⟩, ⟨0, 1 / 10, 0⟩⟩ = some false := by
  refine ⟨rfl, ?_, ?_, ?_⟩
  · norm_num [Vec3f.add, Vec3f.scale, sample_rigid]
  · intro p hp
    simp only [Vec3f.sub, Vec3f.dot]
    nlinarith [sq_nonneg (p.x - 0), sq_nonneg (p.z - 0), sq_nonneg (p.y - 7)]
  · norm_num [Solid.detect_selection, sample_rigid, Vec3f.sub, Vec3f.add, Vec3f.dot]

/-- C29, amended: for a solid with a visual, centre `c` and radius `r` as in the
selection test, `Solid::detect_selection` gives the same result for direction
`d` and for `-d`, whatever the direction; when the origin lies strictly inside
the sphere the result is true for every direction; and for a unit direction,
when any point `o + t d` of the supporting line lies strictly inside the
sphere, also one behind the origin (`t < 0`, as for a sphere lying entirely
behind), the result is true. -/
theorem detect_selection_ignores_sense (s : Solid) (o d : Vec3f) (item : SolidGraphicItem)
    (c : Vec3f) (r : ℚ)
    (hitem : s.graphic_item = some item)
    (hc : c = ⟨s.body.bounding_center.x + s.body.origin.x,
      s.body.bounding_center.y + s.body.origin.y, s.body.bounding_center.z + s.body.origin.z⟩)
    (hr : r = if item.has_alternate_bounding_sphere = true then item.bounding_sphere_radius
      else s.body.bounding_radius) :
    s.detect_selection ⟨o, ⟨-d.x, -d.y, -d.z⟩⟩ = s.detect_selection ⟨o, d⟩ ∧
    ((o.x - c.x) ^ 2 + (o.y - c.y) ^ 2 + (o.z - c.z) ^ 2 < r ^ 2 →
      s.detect_selection ⟨o, d⟩ = some true) ∧
    (∀ t : ℚ, d.x ^ 2 + d.y ^ 2 + d.z ^ 2 = 1 →
      (o.x + t * d.x - c.x) ^ 2 + (o.y + t * d.y - c.y) ^ 2 + (o.z + t * d.z - c.z) ^ 2 < r ^ 2 →
      s.detect_selection ⟨o, d⟩ = some true) := by
  have hc2 : c = s.body.bounding_center.add s.body.origin := hc
  subst hc2 hr
  refine ⟨?_, ?_, ?_⟩
  · rw [detect_selection_eq s _ item hitem, detect_selection_eq s _ item hitem]
    simp only [discriminant_neg]
  · intro hin
    rw [detect_selection_eq s _ item hitem]
    simp only [Option.some.injEq, decide_eq_true_eq, ray_sphere_discriminant]
    nlinarith [sq_nonneg ((o.x - (s.body.bounding_center.add s.body.origin).x) * d.x +
      (o.y - (s.body.bounding_center.add s.body.origin).y) * d.y +
      (o.z - (s.body.bounding_center.add s.body.origin).z) * d.z)]
  · intro t hd hin
    rw [detect_selection_eq s _ item hitem]
    simp only [Option.some.injEq, decide_eq_true_eq]
    rw [discriminant_line_point _ _ _ _ t, hd]
    nlinarith [sq_nonneg ((o.x - (s.body.bounding_center.add s.body.origin).x) * d.x +
      (o.y - (s.body.bounding_center.add s.body.origin).y) * d.y +
      (o.z - (s.body.bounding_center.add s.body.origin).z) * d.z + t)]

theorem detect_selection_ignores_sense_witness :
    sample_rigid.graphic_item = some ⟨true, 2⟩ ∧
    sample_rigid.detect_selection ⟨⟨0, 8, 0⟩, ⟨-(0 : ℚ), -(1 : ℚ), -(0 : ℚ)⟩⟩ =
      sample_rigid.detect_selection ⟨⟨0, 8, 0⟩, ⟨0, 1, 0⟩⟩ ∧
    ((0 : ℚ) ^ 2 + (1 : ℚ) ^ 2 + (0 : ℚ) ^ 2 = 1 ∧
      ((0 : ℚ) + (-3) * 0 - 0) ^ 2 + ((8 : ℚ) + (-3) * 1 - 5) ^ 2 + ((0 : ℚ) + (-3) * 0 - 0) ^ 2
        < (2 : ℚ) ^ 2) ∧
    sample_rigid.detect_selection ⟨⟨0, 8, 0⟩, ⟨0, 1, 0⟩⟩ = some true :=
  ⟨rfl,
   (detect_selection_ignores_sense sample_rigid ⟨0, 8, 0⟩ ⟨0, 1, 0⟩ ⟨true, 2⟩ ⟨0, 5, 0⟩ 2 rfl
      (by norm_num [sample_rigid]) (by simp)).1,
   ⟨by norm_num, by norm_num⟩,
   (detect_selection_ignores_sense sample_rigid ⟨0, 8, 0⟩ ⟨0, 1, 0⟩ ⟨true, 2⟩ ⟨0, 5, 0⟩ 2 rfl
      (by norm_num [sample_rigid]) (by simp)).2.2 (-3) (by norm_num) (by norm_num)⟩

/-! ## Flat meshes -/

theorem band_scan_sorted (r s : ℚ) (vs : List Vec3f) : ∀ i : Nat,
    (band_scan r s vs i).Pairwise (fun a b => a < b) := by
  induction vs with
  | nil => intro i; simp [band_scan]
  | cons u rest ih =>
    intro i
    simp only [band_scan]
    split_ifs
    · rw [List.pairwise_cons]
      refine ⟨?_, ih (i + 1)⟩
      intro j hj
      obtain ⟨k, _, hk, _⟩ := (mem_band_scan r s rest (i + 1) j).mp hj
      omega
    · exact ih (i + 1)

theorem get_top_vertices_sorted (is_pointed_up : Bool) (mesh : TriMesh) :
    (get_top_vertices is_pointed_up mesh).Pairwise (fun a b => a < b) ∧
    ∀ i ∈ get_top_vertices is_pointed_up mesh, i < mesh.vertices.length := by
  unfold get_top_vertices
  cases hvs : mesh.vertices with
  | nil => simp
  | cons v0 rest =>
    refine ⟨band_scan_sorted _ _ _ 0, ?_⟩
    intro i hi
    obtain ⟨k, v, hk, hv, _⟩ := (mem_band_scan _ _ _ 0 i).mp hi
    have := (List.getElem?_eq_some_iff.mp hv).1
    omega

theorem band_spread_self (y : ℚ) : band_spread y y = 0 := by
  simp [band_spread, fl32_zero]

theorem get_top_vertices_flat (is_pointed_up : Bool) (mesh : TriMesh) (y0 : ℚ)
    (hflat : ∀ v ∈ mesh.vertices, v.y = y0) :
    get_top_vertices is_pointed_up mesh = [] := by
  cases hvs : mesh.vertices with
  | nil => simp [get_top_vertices, hvs]
  | cons v0 rest =>
    have hv0 : v0 ∈ mesh.vertices := by rw [hvs]; exact List.mem_cons_self _ _
    have htop : IsGreatest {y | ∃ v ∈ mesh.vertices, v.y = y} y0 :=
      ⟨⟨v0, hv0, hflat v0 hv0⟩, by rintro y ⟨v, hv, rfl⟩; exact le_of_eq (hflat v hv)⟩
    have hbot : IsLeast {y | ∃ v ∈ mesh.vertices, v.y = y} y0 :=
      ⟨⟨v0, hv0, hflat v0 hv0⟩, by rintro y ⟨v, hv, rfl⟩; exact le_of_eq (hflat v hv).symm⟩
    apply List.eq_nil_iff_forall_not_mem.mpr
    intro i hi
    obtain ⟨v, _, h1, h2⟩ := (mem_get_top_vertices is_pointed_up mesh y0 y0 htop hbot i).mp hi
    rw [band_spread_self] at h1 h2
    simp only [ite_self, add_zero, sub_zero] at h1 h2
    exact lt_irrefl _ (lt_trans h2 h1)

/-! ### The nearly flat mesh -/

theorem near_flat_heights (y : ℚ) :
    (∃ v ∈ near_flat_mesh.vertices, v.y = y) ↔ y ∈ ([1000, 16384001 / 16384] : List ℚ) := by
  simp [near_flat_mesh, eq_comm]

theorem near_flat_top :
    IsGreatest {y | ∃ v ∈ near_flat_mesh.vertices, v.y = y} (16384001 / 16384) := by
  constructor
  · exact (near_flat_heights _).mpr (by simp)
  · intro y hy
    have h := (near_flat_heights y).mp hy
    simp only [List.mem_cons, List.mem_singleton, List.not_mem_nil, or_false] at h
    rcases h with h | h
    · rw [h]; norm_num
    · exact le_of_eq h

theorem near_flat_bottom : IsLeast {y | ∃ v ∈ near_flat_mesh.vertices, v.y = y} 1000 := by
  constructor
  · exact (near_flat_heights _).mpr (by simp)
  · intro y hy
    have h := (near_flat_heights y).mp hy
    simp only [List.mem_cons, List.mem_singleton, List.not_mem_nil, or_false] at h
    rcases h with h | h
    · exact le_of_eq h.symm
    · rw [h]; norm_num

theorem near_flat_floats : ∀ v ∈ near_flat_mesh.vertices, fl32 v.y = v.y := by
  intro v hv
  have h := (near_flat_heights v.y).mp ⟨v, hv, rfl⟩
  simp only [List.mem_cons, List.mem_singleton, List.not_mem_nil, or_false] at h
  rcases h with h | h <;> rw [h]
  · rw [fl32_eval 1000 9 16384000 (by norm_num) (by norm_num) (by norm_num)
      (by norm_num [abs_lt])]
    norm_num
  · rw [fl32_eval (16384001 / 16384) 9 16384001 (by norm_num) (by norm_num) (by norm_num)
      (by norm_num [abs_lt])]
    norm_num

theorem near_flat_spread :
    band_spread (16384001 / 16384) 1000 = 13421773 / 2199023255552 := by
  have h1 : fl32 (1 / 16384) = 1 / 16384 := by
    rw [fl32_eval (1 / 16384) (-14) 8388608 (by norm_num) (by norm_num) (by norm_num)
      (by norm_num [abs_lt])]
    norm_num
  have h2 : fl32 (1 / 163840) = 13421773 / 2199023255552 := by
    rw [fl32_eval (1 / 163840) (-18) 13421773 (by norm_num) (by norm_num) (by norm_num)
      (by norm_num [abs_lt])]
    norm_num
  norm_num [band_spread, h1, h2]

theorem near_flat_bounds :
    fl32 (16384001 / 16384 + 13421773 / 2199023255552) = 16384001 / 16384 ∧
    fl32 (16384001 / 16384 - 13421773 / 2199023255552) = 16384001 / 16384 ∧
    fl32 (1000 + 13421773 / 2199023255552) = 1000 ∧
    fl32 (1000 - 13421773 / 2199023255552) = 1000 := by
  refine ⟨?_, ?_, ?_, ?_⟩
  · rw [fl32_eval _ 9 16384001 (by norm_num) (by norm_num) (by norm_num)
      (by norm_num [abs_lt])]
    norm_num
  · rw [fl32_eval _ 9 16384001 (by norm_num) (by norm_num) (by norm_num)
      (by norm_num [abs_lt])]
    norm_num
  · rw [fl32_eval _ 9 16384000 (by norm_num) (by norm_num) (by norm_num)
      (by norm_num [abs_lt])]
    norm_num
  · rw [fl32_eval _ 9 16384000 (by norm_num) (by norm_num) (by norm_num)
      (by norm_num [abs_lt])]
    norm_num

theorem get_top_vertices_near_flat (is_pointed_up : Bool) :
    get_top_vertices is_pointed_up near_flat_mesh = [] := by
  obtain ⟨h1, h2, h3, h4⟩ := near_flat_bounds
  have hs := near_flat_spread
  norm_num at h1 h2 h3 h4
  cases is_pointed_up <;>
    norm_num [get_top_vertices, near_flat_mesh, extent_step, band_scan, hs, h1, h2, h3, h4]

/-- C30, as stated, fails: the mesh with binary32 heights `1000` and
`1000 + 2^(-14)` has its top above its bottom, yet `get_top_vertices` returns
the empty list for either flag value: the spread is so small that both rounded
band bounds fall on the reference height. -/
theorem get_top_vertices_near_flat_empty :
    IsGreatest {y | ∃ v ∈ near_flat_mesh.vertices, v.y = y} (16384001 / 16384) ∧
    IsLeast {y | ∃ v ∈ near_flat_mesh.vertices, v.y = y} 1000 ∧
    (1000 : ℚ) < 16384001 / 16384 ∧
    (∀ v ∈ near_flat_mesh.vertices, fl32 v.y = v.y) ∧
    get_top_vertices false near_flat_mesh = [] ∧
    get_top_vertices true near_flat_mesh = [] :=
  ⟨near_flat_top, near_flat_bottom, by norm_num, near_flat_floats,
   get_top_vertices_near_flat false, get_top_vertices_near_flat true⟩

/-- C30, amended: for every non-empty mesh whose vertices all have the same
height `get_top_vertices` returns the empty list, and `create_soft_mesh` with
`lock_base_vertices` on such a triangle mesh leaves every node at mass 1; for
every mesh whose reference height (`bottom` when pointed up, `top` otherwise)
lies strictly between the two rounded band bounds the result is non-empty; and
for every mesh the returned indices are strictly increasing and smaller than
the vertex count. -/
theorem get_top_vertices_flat_or_not (CreateFromTriMesh : TriMesh → List ℚ)
    (is_pointed_up : Bool) (mesh : TriMesh) :
    (∀ y0 : ℚ, mesh.vertices ≠ [] → (∀ v ∈ mesh.vertices, v.y = y0) →
      get_top_vertices is_pointed_up mesh = [] ∧
      (mesh.WellFormed →
        ∃ nodes, create_soft_mesh CreateFromTriMesh is_pointed_up mesh true = some nodes ∧
          ∀ i, i < nodes.length → nodes[i]? = some 1)) ∧
    (∀ top bottom : ℚ, IsGreatest {y | ∃ v ∈ mesh.vertices, v.y = y} top →
      IsLeast {y | ∃ v ∈ mesh.vertices, v.y = y} bottom →
      fl32 ((if is_pointed_up then bottom else top) - band_spread top bottom) <
        (if is_pointed_up then bottom else top) →
      (if is_pointed_up then bottom else top) <
        fl32 ((if is_pointed_up then bottom else top) + band_spread top bottom) →
      get_top_vertices is_pointed_up mesh ≠ []) ∧
    (get_top_vertices is_pointed_up mesh).Pairwise (fun a b => a < b) ∧
    (∀ i ∈ get_top_vertices is_pointed_up mesh, i < mesh.vertices.length) := by
  refine ⟨?_, ?_, (get_top_vertices_sorted is_pointed_up mesh).1,
    (get_top_vertices_sorted is_pointed_up mesh).2⟩
  · intro y0 _ hflat
    refine ⟨get_top_vertices_flat is_pointed_up mesh y0 hflat, ?_⟩
    intro hwf
    have hd := remove_mesh_duplicates_of_wf mesh hwf
    have hflat2 : ∀ v ∈ (dedup_result mesh).vertices, v.y = y0 := by
      intro v hv
      exact hflat v ((mem_keep_first _ _).mp hv)
    have hg := get_top_vertices_flat is_pointed_up (dedup_result mesh) y0 hflat2
    obtain ⟨n1, hu, hlen, hone⟩ := uniform_mass_loop_eq (CreateFromTriMesh (dedup_result mesh))
    refine ⟨n1, ?_, ?_⟩
    · simp [create_soft_mesh, hd, hu, hg, anchor_mass_loop]
    · intro i hi
      exact hone i (hlen ▸ hi)
  · intro top bottom htop hbot hlo hhi hnil
    have href : ∃ v ∈ mesh.vertices, v.y = (if is_pointed_up then bottom else top) := by
      cases is_pointed_up
      · exact htop.1
      · exact hbot.1
    obtain ⟨v, hv, hvy⟩ := href
    obtain ⟨i, hi⟩ := List.mem_iff_getElem?.mp hv
    have hmem : i ∈ get_top_vertices is_pointed_up mesh :=
      (mem_get_top_vertices is_pointed_up mesh top bottom htop hbot i).mpr
        ⟨v, hi, by rw [hvy]; exact hhi, by rw [hvy]; exact hlo⟩
    rw [hnil] at hmem
    simp at hmem

theorem flat_mesh_heights : ∀ v ∈ flat_mesh.vertices, v.y = 2 := by
  decide

theorem get_top_vertices_flat_or_not_witness :
    (flat_mesh.vertices ≠ [] ∧ (∀ v ∈ flat_mesh.vertices, v.y = 2) ∧ flat_mesh.WellFormed) ∧
    (get_top_vertices false flat_mesh = [] ∧
      ∃ nodes, create_soft_mesh sample_engine false flat_mesh true = some nodes ∧
        ∀ i, i < nodes.length → nodes[i]? = some 1) ∧
    (IsGreatest {y | ∃ v ∈ ladder_mesh.vertices, v.y = y} 10 ∧
      IsLeast {y | ∃ v ∈ ladder_mesh.vertices, v.y = y} 0 ∧
      fl32 ((if false = true then (0 : ℚ) else 10) - band_spread 10 0) <
        (if false = true then (0 : ℚ) else 10) ∧
      (if false = true then (0 : ℚ) else 10) <
        fl32 ((if false = true then (0 : ℚ) else 10) + band_spread 10 0)) ∧
    get_top_vertices false ladder_mesh ≠ [] :=
  ⟨⟨by decide, flat_mesh_heights, by decide⟩,
   ⟨((get_top_vertices_flat_or_not sample_engine false flat_mesh).1 2 (by decide)
      flat_mesh_heights).1,
    ((get_top_vertices_flat_or_not sample_engine false flat_mesh).1 2 (by decide)
      flat_mesh_heights).2 (by decide)⟩,
   ⟨ladder_top, ladder_bottom, by norm_num [band_spread_ten, fl32_nine],
    by norm_num [band_spread_ten, fl32_eleven]⟩,
   (get_top_vertices_flat_or_not sample_engine false ladder_mesh).2.1 10 0 ladder_top
     ladder_bottom (by norm_num [band_spread_ten, fl32_nine])
     (by norm_num [band_spread_ten, fl32_eleven])⟩

/-- The call `set_selected(false)` on a deformable solid clears `selected_`
through `Solid::set_selected` and issues no panel request, whatever the flags
and the prior state. -/
theorem soft_set_selected_false (allow_selection allow_forces : Bool) (s : Solid) :
    SoftSolid.set_selected allow_selection allow_forces s false =
      (Solid.set_selected s false, []) := by
  rfl

end inc
